import Mathlib

/-!
Verification of the core server-manager logic of the palworld-admin
repository: the settings-file merge (update_palworld_settings_ini), the
process-locate retry loop (identify_process_by_name), the first-run
bootstrap sequence (first_run), and the backup retention pruning
(backup_server).  Python strings are modelled as lists of characters,
Python dicts as ordered association lists, and the filesystem and OS
interactions as explicit parameters.
-/

deriving instance DecidableEq for Except

/-- Python strings are modelled as lists of characters. -/
abbrev Str := List Char

/-- ASCII portion of the whitespace class used by Python regular
expressions and by str.strip. -/
def pyWS (c : Char) : Bool :=
  c == ' ' || c == '\t' || c == '\n' || c == '\r' || c == '\x0b' || c == '\x0c'

/-- Number of double-quote characters in a string. -/
def countQuotes (l : Str) : Nat := l.countP (fun c => c == '"')

/-- Python str.strip: drop leading and trailing whitespace. -/
def pyStrip (l : Str) : Str :=
  ((l.dropWhile pyWS).reverse.dropWhile pyWS).reverse

/-- Python str.find for a single character: index of the first
occurrence, or -1 when absent. -/
def pyFind (l : Str) (c : Char) : Int :=
  match l.findIdx? (fun x => x == c) with
  | some i => (i : Int)
  | none => -1

/-- Python str.rfind for a single character: index of the last
occurrence, or -1 when absent. -/
def pyRfind (l : Str) (c : Char) : Int :=
  match l.reverse.findIdx? (fun x => x == c) with
  | some i => ((l.length - 1 - i : Nat) : Int)
  | none => -1

/-- Python slice s[a:b] for 0 <= a <= b. -/
def pySubstr (l : Str) (a b : Nat) : Str := (l.drop a).take (b - a)

/-- Python setting.partition for the separator: the part before the
first occurrence and the part after it (the latter empty when the
separator is absent, as in the 3-tuple returned by str.partition). -/
def partitionEq (t : Str) : Str × Str :=
  (t.takeWhile (fun c => !(c == '=')),
   match t.dropWhile (fun c => !(c == '=')) with
   | [] => []
   | _ :: v => v)

/-- Python str.split on a newline character. -/
def splitNlAux : Str → Str → List Str
  | [], acc => [acc.reverse]
  | c :: rest, acc =>
    if c == '\n' then acc.reverse :: splitNlAux rest []
    else splitNlAux rest (c :: acc)

/-- Python str.split("\n"). -/
def splitNl (s : Str) : List Str := splitNlAux s []

/-- Python substring test: needle in hay (str.find(needle) != -1). -/
def containsSub (hay needle : Str) : Bool :=
  if needle.isPrefixOf hay then true
  else
    match hay with
    | [] => false
    | _ :: t => containsSub t needle

/-- Lexicographic string comparison by code point, as Python compares
strings: le a b means a <= b. -/
def strLe : Str → Str → Bool
  | [], _ => true
  | _ :: _, [] => false
  | a :: as, b :: bs => if a < b then true else if b < a then false else strLe as bs

/-- Ascending string order as a decidable relation (Python sort order). -/
abbrev strLeP (a b : Str) : Prop := strLe a b = true

instance : DecidableRel strLeP := fun a b => instDecidableEqBool (strLe a b) true

/-- Descending string order (Python sort with reverse=True). -/
abbrev strGeP (a b : Str) : Prop := strLe b a = true

instance : DecidableRel strGeP := fun a b => instDecidableEqBool (strLe b a) true

instance : IsTrans Str strLeP := by
  constructor
  intro a
  induction a with
  | nil => intro b c _ _; rfl
  | cons x as ih =>
    intro b c hab hbc
    cases b with
    | nil => simp [strLeP, strLe] at hab
    | cons y bs =>
      cases c with
      | nil => simp [strLeP, strLe] at hbc
      | cons z cs =>
        simp only [strLeP, strLe] at hab hbc ⊢
        rcases lt_trichotomy x y with hxy | hxy | hxy
        · rcases lt_trichotomy y z with hyz | hyz | hyz
          · simp [lt_trans hxy hyz]
          · subst hyz; simp [hxy]
          · simp [hyz, not_lt_of_lt hyz] at hbc
        · subst hxy
          rcases lt_trichotomy x z with hyz | hyz | hyz
          · simp [hyz]
          · subst hyz
            simp [lt_irrefl] at hab hbc ⊢
            exact ih _ _ hab hbc
          · simp [hyz, not_lt_of_lt hyz] at hbc
        · simp [hxy, not_lt_of_lt hxy] at hab

instance : IsTotal Str strLeP := by
  constructor
  intro a
  induction a with
  | nil => intro b; left; rfl
  | cons x as ih =>
    intro b
    cases b with
    | nil => right; rfl
    | cons y bs =>
      simp only [strLeP, strLe]
      rcases lt_trichotomy x y with hxy | hxy | hxy
      · left; simp [hxy]
      · subst hxy
        simp [lt_irrefl]
        exact ih bs
      · right; simp [hxy, not_lt_of_lt hxy]

/-! ### The settings merge: update_palworld_settings_ini
(src/palworld_admin/servermanager/init module, lines 1228-1343) -/

/-- Embedding of the nested helper quote_value_if_needed: a value that
already starts and ends with a double quote is kept; a value containing
a space, comma or parenthesis is wrapped in double quotes; anything
else is kept as is.  The redundant second disjunct mirrors the
source condition (any special char present, or a space present). -/
def quote_value_if_needed (value : Str) : Str :=
  if value.head? == some '"' && value.getLast? == some '"' then value
  else if value.any (fun c => c == ' ' || c == ',' || c == '(' || c == ')')
          || value.contains ' ' then
    '"' :: value ++ ['"']
  else value

/-- Scanner for the quote-aware comma split.  The source splits with the
regular expression pattern of a comma followed by optional whitespace,
with a lookahead requiring an even number of double quotes up to the end
of the string.  The scanner emits a boundary at each comma whose suffix
holds an even number of quotes, consuming the comma and any following
whitespace (the skip flag records that whitespace is being consumed). -/
def split_settings_aux : Str → Str → Bool → List Str
  | [], acc, _ => [acc.reverse]
  | c :: rest, acc, skip =>
    if skip && pyWS c then split_settings_aux rest acc true
    else if c == ',' && countQuotes rest % 2 == 0 then
      acc.reverse :: split_settings_aux rest [] true
    else split_settings_aux rest (c :: acc) false

/-- Embedding of the nested helper split_settings_string: split the inner
settings string on commas that are not inside a pair of double quotes. -/
def split_settings_string (s : Str) : List Str := split_settings_aux s [] false

/-- Python dicts with string keys and values, as ordered association
lists (insertion order, unique keys). -/
abbrev Upd := List (Str × Str)

/-- Keys of a dict, in insertion order. -/
def dictKeys (u : Upd) : List Str := u.map Prod.fst

/-- Python key in dict. -/
def dictContains (u : Upd) (k : Str) : Bool := (dictKeys u).contains k

/-- Python dict lookup d[k], as an Option (none models a KeyError). -/
def dictGet (u : Upd) (k : Str) : Option Str :=
  match u with
  | [] => none
  | kv :: rest => if kv.1 == k then some kv.2 else dictGet rest k

/-- Python dict assignment d[k] = v: replace the value in place when the
key exists, append otherwise. -/
def dictAssign (u : Upd) (k v : Str) : Upd :=
  match u with
  | [] => [(k, v)]
  | kv :: rest => if kv.1 == k then (k, v) :: rest else kv :: dictAssign rest k v

/-- Python dict d.pop(k) without a default: none models the KeyError
raised when the key is absent. -/
def dictPop (u : Upd) (k : Str) : Option Upd :=
  match u with
  | [] => none
  | kv :: rest => if kv.1 == k then some rest else (dictPop rest k).map (kv :: ·)

/-- Result dict with status and message keys, as built by the source. -/
structure PyResult where
  status : String
  message : String
deriving DecidableEq, Repr

/-- Outcomes that abort the directive-processing loop: the explicit
early error return for an inverted parenthesized span, and the KeyError
raised by dict.pop (caught by the surrounding try block). -/
inductive MergeExc where
  | malformed
  | keyError
deriving DecidableEq, Repr

/-- Directive marker which a settings line must start with. -/
def optionSettingsMarker : Str := "OptionSettings=".toList

/-- Python line.startswith("OptionSettings="). -/
def isDirective (l : Str) : Bool := optionSettingsMarker.isPrefixOf l

/-- Key "RCONEnabled" looked up unconditionally by the merge. -/
def rconKey : Str := "RCONEnabled".toList

/-- Key "PublicIP" assigned unconditionally by the merge. -/
def pubKey : Str := "PublicIP".toList

/-- Embedding of the token loop of update_palworld_settings_ini: for
each existing key=value token, keys present in the update dict are
rewritten from the update value and popped from the remaining set;
other tokens are re-emitted with the quoting rule re-applied. -/
def processTokens (s2 : Upd) : List Str → Upd → Except MergeExc (List Str × Upd)
  | [], leftover => .ok ([], leftover)
  | t :: ts, leftover =>
    let k := pyStrip (partitionEq t).1
    if dictContains s2 k then
      match dictPop leftover k with
      | none => .error .keyError
      | some leftover2 =>
        match processTokens s2 ts leftover2 with
        | .error e => .error e
        | .ok (l, lo) =>
          .ok ((k ++ '=' :: quote_value_if_needed ((dictGet s2 k).getD [])) :: l, lo)
    else
      match processTokens s2 ts leftover with
      | .error e => .error e
      | .ok (l, lo) =>
        .ok ((k ++ '=' :: quote_value_if_needed (partitionEq t).2) :: l, lo)

/-- Python ",".join. -/
def joinComma : List Str → Str
  | [] => []
  | [t] => t
  | t :: ts => t ++ ',' :: joinComma ts

/-- Rebuilt directive line: the inner string rewrapped in the directive
syntax with a trailing newline, as written back by the source. -/
def mkDirLine (inner : Str) : Str :=
  optionSettingsMarker ++ '(' :: (inner ++ [')', '\n'])

/-- Embedding of the per-directive-line body: locate the parenthesized
span with find and rfind, fail when the span is inverted, split the
inner string, process the tokens, append the unmatched updates, and
rebuild the line. -/
def processDirective (s2 : Upd) (line : Str) : Except MergeExc Str :=
  if pyRfind line ')' > pyFind line '(' + 1 then
    match processTokens s2
        (split_settings_string
          (pySubstr line (pyFind line '(' + 1).toNat (pyRfind line ')').toNat)) s2 with
    | .error e => .error e
    | .ok (mods, leftover) =>
      .ok (mkDirLine (joinComma
        (mods ++ leftover.map (fun kv => kv.1 ++ '=' :: quote_value_if_needed kv.2))))
  else .error .malformed

/-- Embedding of the line loop: every line starting with the directive
marker is rewritten (or aborts the whole call), every other line passes
through unchanged. -/
def processAll (s2 : Upd) : List Str → Except MergeExc (List Str)
  | [] => .ok []
  | line :: rest =>
    if isDirective line then
      match processDirective s2 line with
      | .error e => .error e
      | .ok nl =>
        match processAll s2 rest with
        | .error e => .error e
        | .ok r => .ok (nl :: r)
    else
      match processAll s2 rest with
      | .error e => .error e
      | .ok r => .ok (line :: r)

/-- Result on success. -/
def msgSuccess : PyResult := ⟨"success", "Settings updated successfully"⟩

/-- Result of the early return for an inverted parenthesized span. -/
def msgMalformed : PyResult :=
  ⟨"error", "Error reading settings file, settings_string_end is less than settings_string_start"⟩

/-- Result produced by the catch-all except branch. -/
def msgWriteError : PyResult := ⟨"error", "Error writing settings file"⟩

/-- Result of the early return when the public IP cannot be obtained. -/
def msgNoIp : PyResult := ⟨"error", "Error getting public IP address"⟩

/-- Normalization of the RCONEnabled value done before the merge:
lowercase true and false are replaced by their capitalized forms. -/
def rconNorm (u : Upd) (v : Str) : Upd :=
  if v = "true".toList then dictAssign u rconKey "True".toList
  else if v = "false".toList then dictAssign u rconKey "False".toList
  else u

/-- Embedding of update_palworld_settings_ini.  The public IP (fetched
over the network by the source) and the settings file content (read from
disk) are parameters; the Except layer models the uncaught KeyError
raised by the RCONEnabled lookup, which sits outside the try block.  On
a pre-write error return the original lines are paired with the result,
since the file has not been rewritten; on success the processed lines
are the newly written file content. -/
def update_palworld_settings_ini (publicIp : Str) (settings_to_change : Upd)
    (lines : List Str) : Except Unit (PyResult × List Str) :=
  if publicIp = [] then .ok (msgNoIp, lines)
  else
    match dictGet (dictAssign settings_to_change pubKey (('"' :: publicIp) ++ ['"']))
        rconKey with
    | none => .error ()
    | some v =>
      match processAll
          (rconNorm (dictAssign settings_to_change pubKey (('"' :: publicIp) ++ ['"'])) v)
          lines with
      | .ok newLines => .ok (msgSuccess, newLines)
      | .error .malformed => .ok (msgMalformed, lines)
      | .error .keyError => .ok (msgWriteError, lines)

/-- Settings dict after the PublicIP assignment and the RCONEnabled
normalization, assuming the RCONEnabled lookup succeeded. -/
def mkS2 (publicIp : Str) (u : Upd) : Upd :=
  rconNorm (dictAssign u pubKey (('"' :: publicIp) ++ ['"']))
    ((dictGet (dictAssign u pubKey (('"' :: publicIp) ++ ['"'])) rconKey).getD [])

/-- Stripped key of a key=value token, as parsed by the token loop. -/
def stripKey (t : Str) : Str := pyStrip (partitionEq t).1

/-- Rewritten form of one existing token, as produced by the token
loop: the update value when the key is in the update dict, the
re-quoted original value otherwise. -/
def transformToken (s2 : Upd) (t : Str) : Str :=
  let k := stripKey t
  if dictContains s2 k then k ++ '=' :: quote_value_if_needed ((dictGet s2 k).getD [])
  else k ++ '=' :: quote_value_if_needed (partitionEq t).2

/-- Entries of a dict whose keys are not in the given list. -/
def filterKeysNotIn (u : Upd) (ks : List Str) : Upd :=
  u.filter (fun kv => decide (kv.1 ∉ ks))

/-- Token list of the rewritten directive: the transformed existing
tokens followed by the leftover updates in dict order. -/
def mergedTokens (s2 : Upd) (inner : Str) : List Str :=
  (split_settings_string inner).map (transformToken s2)
    ++ (filterKeysNotIn s2 ((split_settings_string inner).map stripKey)).map
        (fun kv => kv.1 ++ '=' :: quote_value_if_needed kv.2)

/-! ### The process-locate retry loop: identify_process_by_name
(src/palworld_admin/servermanager/init module, lines 524-716) -/

/-- Outcome of one lookup attempt by the find command: a completed run
with some standard output (the source then takes the first line of the
stripped output as the pid), a completed run with empty output, or a
CalledProcessError from the command. -/
inductive FindAttempt where
  | found (stdout : Str)
  | empty
  | cmdError
deriving Repr

/-- Result dict of identify_process_by_name (status and value keys). -/
structure IdResult where
  status : String
  value : Str
deriving DecidableEq, Repr

/-- Pid extracted from one attempt, when any: the first line of the
stripped standard output, provided it is nonempty (an empty pid string
is falsy in Python, so the loop keeps going). -/
def attemptPid (a : FindAttempt) : Option Str :=
  match a with
  | .found stdout =>
    let pid := (splitNl (pyStrip stdout)).headD []
    if pid.isEmpty then none else some pid
  | .empty => none
  | .cmdError => none

/-- Embedding of the while-loop of identify_process_by_name (the
pgrep branch; the Windows branch has the same retry skeleton).  Each
iteration runs the find command (the environment maps the attempt index
to its outcome), updates the result dict, increments the attempt
counter, breaks with an error result once the counter exceeds
max_attempts, and otherwise sleeps one second and re-checks the loop
condition (pid found).  The fuel argument only bounds the recursion and
is chosen large enough that it is never exhausted before the break. -/
def identifyLoop (env : Nat → FindAttempt) :
    Nat → Nat → Nat → Option IdResult → Option IdResult × Nat
  | 0, _, attempts, res => (res, attempts)
  | fuel + 1, maxAttempts, attempts, res =>
    let res2 : Option IdResult :=
      match env attempts with
      | .found stdout => some ⟨"success", (splitNl (pyStrip stdout)).headD []⟩
      | .empty => res
      | .cmdError => some ⟨"error", "Failed to find process due to error.".toList⟩
    let attempts2 := attempts + 1
    if attempts2 > maxAttempts then
      (some ⟨"error", "Failed to find process".toList⟩, attempts2)
    else
      match attemptPid (env attempts) with
      | some _ => (res2, attempts2)
      | none => identifyLoop env fuel maxAttempts attempts2 res2

/-- Embedding of identify_process_by_name: max_attempts is 5, lowered
to 1 when the server is not expected to be running; the loop starts
with no pid and an empty result dict (modelled as none).  Returns the
final result dict and the number of lookup attempts executed. -/
def identify_process_by_name (env : Nat → FindAttempt)
    (expected_to_be_running : Bool) : Option IdResult × Nat :=
  let maxAttempts := if expected_to_be_running then 5 else 1
  identifyLoop env (maxAttempts + 1) maxAttempts 0 none

/-! ### The first-run bootstrap: first_run
(src/palworld_admin/servermanager/init module, lines 1346-1411) -/

/-- Outcomes of the collaborator calls made by first_run.  The result
of run_server is recorded as a field even though the source never
examines it. -/
structure FirstRunEnv where
  run_server_result : PyResult
  terminated : Bool
  copy_result : PyResult
  rcon_result : PyResult
deriving DecidableEq, Repr

/-- Steps of the bootstrap sequence, in execution order. -/
inductive FirstRunStep where
  | runServer
  | settle
  | terminate
  | copyDefaults
  | updateSettingsIni
deriving DecidableEq, Repr

/-- Embedding of first_run: run the server (result unchecked), sleep,
terminate by pid, and only then gate each remaining step on the success
of the previous one.  Returns the result dict and the list of steps
that were executed. -/
def first_run (env : FirstRunEnv) : PyResult × List FirstRunStep :=
  let steps0 : List FirstRunStep := [.runServer, .settle, .terminate]
  if env.terminated then
    let steps1 := steps0 ++ [.copyDefaults]
    if env.copy_result.status = "success" then
      let steps2 := steps1 ++ [.updateSettingsIni]
      if env.rcon_result.status = "success" then
        (⟨"success", "Server installed successfully"⟩, steps2)
      else (⟨"error", "Error enabling RCON on the server"⟩, steps2)
    else (⟨"error", "Error copying default settings to the server"⟩, steps1)
  else (⟨"error", "Error terminating server"⟩, steps0)

/-! ### Backup creation, verification and retention pruning:
backup_server (src/palworld_admin/servermanager/init module,
lines 1444-1524, and src/palworld_admin/servermanager/local/init
module, lines 479-541) -/

/-- Python folder.find("AutoBackup") != -1, also "AutoBackup" in folder. -/
def hasAutoBackupTag (folder : Str) : Bool := containsSub folder "AutoBackup".toList

/-- Folders deleted by the retention-pruning step of the main
backup_server: when the backup count is positive, the folders carrying
the AutoBackup tag are sorted ascending and the oldest
count - backup_count of them are removed when there are more than
backup_count. -/
def backupPruneDeleted (backup_folders : List Str) (backup_count : Nat) : List Str :=
  if backup_count > 0 then
    let folders_to_prune := (backup_folders.filter hasAutoBackupTag).insertionSort strLeP
    if folders_to_prune.length > backup_count then
      folders_to_prune.take (folders_to_prune.length - backup_count)
    else []
  else []

/-- Directory state after the pruning step of the main backup_server:
the folders whose names were passed to rmtree are gone. -/
def backupPruneRemaining (backup_folders : List Str) (backup_count : Nat) : List Str :=
  backup_folders.filter (fun f => decide (f ∉ backupPruneDeleted backup_folders backup_count))

/-- Embedding of the Python pattern in the local backup_server that
removes elements from the very list being iterated: the loop index
advances by one each iteration while list.remove drops the first
occurrence of the current element, so the element following a removed
one is skipped.  The fuel equals the initial length, which suffices
because the index grows every iteration and the list never grows. -/
def pyRemoveScan : Nat → List Str → Nat → List Str
  | 0, l, _ => l
  | fuel + 1, l, i =>
    match l.get? i with
    | none => l
    | some x =>
      if hasAutoBackupTag x then pyRemoveScan fuel l (i + 1)
      else pyRemoveScan fuel (l.erase x) (i + 1)

/-- Pruning step of the local backup_server copy: sort all folders
descending, drop non-AutoBackup names with the remove-while-iterating
loop, and delete every folder after the first backup_count surviving
entries.  Returns the deleted folders and the remaining directory
state. -/
def backup_server_local_prune (backup_folders : List Str) (backup_count : Nat) :
    List Str × List Str :=
  if backup_count > 0 then
    let sortedDesc := backup_folders.insertionSort strGeP
    let filtered := pyRemoveScan sortedDesc.length sortedDesc 0
    let deleted := if filtered.length > backup_count then filtered.drop backup_count else []
    (deleted, backup_folders.filter (fun f => decide (f ∉ deleted)))
  else ([], backup_folders)

/-- Name of the top-level backup folder for a given backup type, as
chosen by backup_server before appending the Saved component. -/
def backupFolderName (backup_type timestamp : Str) : Str :=
  if backup_type = "manual".toList then timestamp
  else if backup_type = "launch".toList then timestamp ++ "-LaunchBackup".toList
  else if backup_type = "firstrun".toList then timestamp ++ "-FirstRunBackup".toList
  else timestamp ++ "-AutoBackup".toList

/-- Path segment "Saved". -/
def savedSeg : Str := "Saved".toList

/-- Copy-and-verify step of backup_server, on directory paths relative
to the backup root (each path a list of name segments).  copytree
creates both the top-level folder name and name/Saved (os.makedirs
semantics); the verification compares the top-level listings of the
data directory and of the copied Saved folder; on mismatch
shutil.rmtree(backup_folder) removes the Saved subtree only, and an
error result is produced. -/
def backupCreateVerify (root_dirs : List (List Str)) (name : Str)
    (data_contents backup_contents : List Str) : PyResult × List (List Str) :=
  let dirs1 := root_dirs ++ [[name], [name, savedSeg]]
  if data_contents = backup_contents then
    (⟨"success", "Server data backed up successfully"⟩, dirs1)
  else
    (⟨"error", "Error backing up server data"⟩,
      dirs1.filter (fun p => !([name, savedSeg].isPrefixOf p)))

/-! ### Well-formedness predicates used in the statements about the
settings merge -/

/-- Balanced value: either quote-free, or exactly one enclosing pair of
double quotes with a quote-free interior.  The quoting rule of the
source preserves this shape, and on such values the rewritten directive
survives a round trip through the quote-aware split. -/
def valueBalanced (v : Str) : Bool :=
  countQuotes v == 0
    || (decide (2 ≤ v.length) && v.head? == some '"' && v.getLast? == some '"'
        && countQuotes v == 2)

/-- Well-behaved update key: no double quote, comma or equals sign, and
stable under str.strip. -/
def updKeyOK (k : Str) : Bool :=
  !k.contains '"' && !k.contains ',' && !k.contains '=' && (pyStrip k == k)

/-- Well-behaved update dict: every entry has a well-behaved key and a
balanced value. -/
def updOK (u : Upd) : Bool := u.all (fun kv => updKeyOK kv.1 && valueBalanced kv.2)

/-- Well-behaved existing token of the directive: its stripped key has
no double quote or comma, and its value is balanced. -/
def tokenOK (t : Str) : Bool :=
  !(stripKey t).contains '"' && !(stripKey t).contains ','
    && valueBalanced (partitionEq t).2

/-- No comma of the string lies at a split boundary: every comma is
followed, within the string, by an odd number of double quotes. -/
def noBreakTok : Str → Bool
  | [] => true
  | c :: rest =>
    (if c == ',' then countQuotes rest % 2 == 1 else true) && noBreakTok rest

/-- First character, if any, is not whitespace. -/
def headNotWS (t : Str) : Bool :=
  match t.head? with
  | some c => !pyWS c
  | none => true

/-- Last character, if any, is not whitespace. -/
def lastNotWS (t : Str) : Bool :=
  match t.getLast? with
  | some c => !pyWS c
  | none => true

/-- Token that the quote-aware split scanner passes through intact when
it occurs as a comma-separated component: an even number of quotes, no
splittable comma, and no leading whitespace. -/
def goodTok (t : Str) : Bool := countQuotes t % 2 == 0 && noBreakTok t && headNotWS t

/-- Token already in the normal form emitted by the merge: it is its
stripped key, an equals sign, and a value fixed by the quoting rule. -/
def normalizedToken (t : Str) : Bool :=
  t == stripKey t ++ '=' :: (partitionEq t).2
    && quote_value_if_needed (partitionEq t).2 == (partitionEq t).2

/-! ## Theorems -/

/-! ### Process locate: the retry loop (claims C5, C6) -/

lemma identifyLoop_attempts_le (env : Nat → FindAttempt) (maxA : Nat) :
    ∀ fuel attempts res, (identifyLoop env fuel maxA attempts res).2 ≤ attempts + fuel := by
  intro fuel
  induction fuel with
  | zero => intro attempts res; simp [identifyLoop]
  | succ f ih =>
    intro attempts res
    simp only [identifyLoop]
    by_cases hb : attempts + 1 > maxA
    · rw [if_pos hb]; omega
    · rw [if_neg hb]
      cases hpid : attemptPid (env attempts) with
      | some p => simp [hpid]
      | none =>
        simp only [hpid]
        calc (identifyLoop env f maxA (attempts + 1) _).2 ≤ (attempts + 1) + f :=
              ih (attempts + 1) _
          _ = attempts + (f + 1) := by omega

lemma identifyLoop_exhaust (env : Nat → FindAttempt) (maxA : Nat)
    (h : ∀ i, attemptPid (env i) = none) :
    ∀ fuel attempts res, attempts + fuel = maxA + 1 → attempts ≤ maxA →
      identifyLoop env fuel maxA attempts res
        = (some ⟨"error", "Failed to find process".toList⟩, maxA + 1) := by
  intro fuel
  induction fuel with
  | zero => intro attempts res h1 h2; omega
  | succ f ih =>
    intro attempts res h1 h2
    simp only [identifyLoop]
    by_cases hb : attempts + 1 > maxA
    · rw [if_pos hb]
      have : attempts + 1 = maxA + 1 := by omega
      rw [this]
    · rw [if_neg hb]
      simp only [h]
      exact ih (attempts + 1) _ (by omega) (by omega)

/-- Claim C5 (corrected).  When the retry budget is exhausted without
finding a matching process, identify_process_by_name does not return a
NotFound-style success: the break branch overwrites the result with
status "error" and value "Failed to find process", so absence is
reported through the error channel. -/
theorem identify_exhaustion_reports_error (env : Nat → FindAttempt)
    (expected : Bool) (h : ∀ i, attemptPid (env i) = none) :
    identify_process_by_name env expected
      = (some ⟨"error", "Failed to find process".toList⟩,
         (if expected then 5 else 1) + 1) := by
  unfold identify_process_by_name
  exact identifyLoop_exhaust env _ h _ 0 none (by omega) (by omega)

/-- Witness for identify_exhaustion_reports_error: a run in which every
attempt completes with empty output. -/
theorem identify_exhaustion_reports_error_witness :
    identify_process_by_name (fun _ => .empty) true
      = (some ⟨"error", "Failed to find process".toList⟩, 6) :=
  identify_exhaustion_reports_error (fun _ => .empty) true (fun _ => rfl)

/-- Claim C5, original statement, refuted: with a process that is never
present (every lookup completes with empty output and no command
failure), the returned status is "error", not a normal NotFound-style
result. -/
theorem identify_exhaustion_counterexample :
    (identify_process_by_name (fun _ => .empty) true).1
      = some ⟨"error", "Failed to find process".toList⟩
    ∧ (identify_process_by_name (fun _ => .empty) true).1
      ≠ some ⟨"success", "No matching processes found.".toList⟩ := by decide

/-- Claim C6 (corrected).  Because the loop increments the attempt
counter before comparing it with max_attempts using a strict test, the
loop executes up to max_attempts + 1 lookups: at most 6 when the server
is expected to be running and at most 2 otherwise, with exactly that
many whenever no attempt yields a pid. -/
theorem identify_attempt_counts (env : Nat → FindAttempt) (expected : Bool) :
    (identify_process_by_name env expected).2 ≤ (if expected then 6 else 2)
    ∧ ((∀ i, attemptPid (env i) = none) →
        (identify_process_by_name env expected).2 = (if expected then 6 else 2)) := by
  constructor
  · have h := identifyLoop_attempts_le env (if expected then 5 else 1)
      ((if expected then 5 else 1) + 1) 0 none
    unfold identify_process_by_name
    cases expected <;> simpa using h
  · intro h
    unfold identify_process_by_name
    rw [identifyLoop_exhaust env _ h _ 0 none (by omega) (by omega)]
    cases expected <;> simp

/-- Witness for identify_attempt_counts: with no process present the
expected-to-be-running loop performs 6 lookups. -/
theorem identify_attempt_counts_witness :
    (identify_process_by_name (fun _ => .cmdError) true).2 ≤ 6
    ∧ (identify_process_by_name (fun _ => .cmdError) true).2 = 6 :=
  ⟨(identify_attempt_counts (fun _ => .cmdError) true).1,
   (identify_attempt_counts (fun _ => .cmdError) true).2 (fun _ => rfl)⟩

/-- Claim C6, original statement, refuted: with the
expected-to-be-running flag false and no process present, the loop
performs 2 lookup attempts, not 1; with the flag true it performs 6,
not at most 5. -/
theorem identify_attempt_counts_counterexample :
    (identify_process_by_name (fun _ => .empty) false).2 = 2
    ∧ (identify_process_by_name (fun _ => .empty) true).2 = 6 := by decide

/-! ### The first-run bootstrap (claim C9) -/

/-- Claim C9 (corrected).  first_run never examines the result of the
start step: the run_server result has no influence on the outcome, and
the sequence always proceeds to the termination step.  The remaining
steps are confirmed in order and the sequence aborts on the first
failure among termination, settings copy and settings merge, surfacing
that step in the message. -/
theorem first_run_aborts_after_start (env : FirstRunEnv) (r : PyResult) :
    (first_run { env with run_server_result := r } = first_run env)
    ∧ (env.terminated = false →
        first_run env = (⟨"error", "Error terminating server"⟩,
          [.runServer, .settle, .terminate]))
    ∧ (env.terminated = true → env.copy_result.status ≠ "success" →
        first_run env = (⟨"error", "Error copying default settings to the server"⟩,
          [.runServer, .settle, .terminate, .copyDefaults]))
    ∧ (env.terminated = true → env.copy_result.status = "success" →
        env.rcon_result.status ≠ "success" →
        first_run env = (⟨"error", "Error enabling RCON on the server"⟩,
          [.runServer, .settle, .terminate, .copyDefaults, .updateSettingsIni]))
    ∧ (env.terminated = true → env.copy_result.status = "success" →
        env.rcon_result.status = "success" →
        first_run env = (⟨"success", "Server installed successfully"⟩,
          [.runServer, .settle, .terminate, .copyDefaults, .updateSettingsIni])) := by
  refine ⟨rfl, ?_, ?_, ?_, ?_⟩
  · intro ht; simp [first_run, ht]
  · intro ht hc; simp [first_run, ht, hc]
  · intro ht hc hr; simp [first_run, ht, hc, hr]
  · intro ht hc hr; simp [first_run, ht, hc, hr]

/-- Witness for first_run_aborts_after_start: a failed termination
aborts before the copy step. -/
theorem first_run_aborts_after_start_witness :
    first_run ⟨⟨"success", "ok"⟩, false, ⟨"success", "ok"⟩, ⟨"success", "ok"⟩⟩
      = (⟨"error", "Error terminating server"⟩,
         [.runServer, .settle, .terminate]) :=
  (first_run_aborts_after_start
    ⟨⟨"success", "ok"⟩, false, ⟨"success", "ok"⟩, ⟨"success", "ok"⟩⟩
    ⟨"success", "ok"⟩).2.1 rfl

/-- Claim C9, original statement, refuted: when the start step fails
(run_server reports an error) the sequence still continues to the
termination and settings-rewrite steps and reports overall success, so
the start failure is neither confirmed nor surfaced. -/
theorem first_run_counterexample :
    (first_run ⟨⟨"error", "Error starting server"⟩, true,
        ⟨"success", "ok"⟩, ⟨"success", "ok"⟩⟩).1
      = ⟨"success", "Server installed successfully"⟩
    ∧ FirstRunStep.terminate ∈ (first_run ⟨⟨"error", "Error starting server"⟩, true,
        ⟨"success", "ok"⟩, ⟨"success", "ok"⟩⟩).2
    ∧ FirstRunStep.updateSettingsIni ∈ (first_run ⟨⟨"error", "Error starting server"⟩,
        true, ⟨"success", "ok"⟩, ⟨"success", "ok"⟩⟩).2 := by decide

/-! ### Backup verification cleanup (claim C8) -/

/-- Claim C8 (corrected).  When the post-copy verification fails, the
operation removes only the Saved subtree of the new backup and returns
an error: the timestamped top-level folder of that backup remains under
the backup root. -/
theorem backup_verify_mismatch (root_dirs : List (List Str)) (name : Str)
    (dc bc : List Str) (h : dc ≠ bc) :
    (backupCreateVerify root_dirs name dc bc).1
      = ⟨"error", "Error backing up server data"⟩
    ∧ (backupCreateVerify root_dirs name dc bc).2
      = root_dirs.filter (fun p => !([name, savedSeg].isPrefixOf p)) ++ [[name]]
    ∧ [name] ∈ (backupCreateVerify root_dirs name dc bc).2 := by
  unfold backupCreateVerify
  rw [if_neg h]
  have h1 : ([name, savedSeg].isPrefixOf [name]) = false := by
    simp [List.isPrefixOf]
  have h2 : ([name, savedSeg].isPrefixOf [name, savedSeg]) = true := by
    simp [List.isPrefixOf]
  refine ⟨rfl, ?_, ?_⟩
  · simp [List.filter_append, h1, h2]
  · simp [List.filter_append, h1, h2]

/-- Witness for backup_verify_mismatch at a concrete mismatch. -/
theorem backup_verify_mismatch_witness :
    (backupCreateVerify [] "2024-01-01_00-00-00-AutoBackup".toList
        ["Players".toList] []).1
      = ⟨"error", "Error backing up server data"⟩
    ∧ (backupCreateVerify [] "2024-01-01_00-00-00-AutoBackup".toList
        ["Players".toList] []).2
      = [].filter (fun p => !(["2024-01-01_00-00-00-AutoBackup".toList, savedSeg].isPrefixOf p))
        ++ [["2024-01-01_00-00-00-AutoBackup".toList]]
    ∧ ["2024-01-01_00-00-00-AutoBackup".toList]
        ∈ (backupCreateVerify [] "2024-01-01_00-00-00-AutoBackup".toList
            ["Players".toList] []).2 :=
  backup_verify_mismatch [] "2024-01-01_00-00-00-AutoBackup".toList
    ["Players".toList] [] (by decide)

/-- Claim C8, original statement, refuted: after a failed verification
a residual folder of the failed backup (its timestamped top-level
directory) remains under the backup root. -/
theorem backup_verify_counterexample :
    (backupCreateVerify [] "2024-01-01_00-00-00-AutoBackup".toList
        ["Players".toList] []).1.status = "error"
    ∧ ["2024-01-01_00-00-00-AutoBackup".toList]
        ∈ (backupCreateVerify [] "2024-01-01_00-00-00-AutoBackup".toList
            ["Players".toList] []).2 := by decide

/-! ### Backup pruning in the local copy (claim C4) -/

/-- Claim C4 (code bug).  The local backup_server copy filters
non-AutoBackup folders out of its candidate list by removing elements
from the list it is iterating over; the iteration index still advances,
skipping the element after each removal.  On this input the manual
folder 2024-01-01 survives the filter, occupies a retention slot, and
is then deleted by the pruning loop even though its name does not
contain the AutoBackup tag. -/
theorem local_prune_deletes_manual_backup :
    (backup_server_local_prune
        ["2024-01-03-AutoBackup".toList, "2024-01-02".toList, "2024-01-01".toList] 1).1
      = ["2024-01-01".toList]
    ∧ hasAutoBackupTag "2024-01-01".toList = false := by decide

/-! ### Dict lemmas and the unconditional RCONEnabled lookup (claim C10) -/

lemma dictGet_assign_ne (u : Upd) (k v k2 : Str) (h : k2 ≠ k) :
    dictGet (dictAssign u k v) k2 = dictGet u k2 := by
  induction u with
  | nil =>
    simp only [dictAssign, dictGet]
    rw [if_neg]
    simp [beq_iff_eq]
    exact fun hh => h hh.symm
  | cons kv rest ih =>
    simp only [dictAssign]
    by_cases hk : kv.1 = k
    · simp only [hk, beq_self_eq_true, if_true, dictGet]
      rw [if_neg, if_neg]
      · simp [beq_iff_eq]; exact fun hh => h hh.symm
      · simp [beq_iff_eq, hk]; exact fun hh => h hh.symm
    · rw [if_neg (by simp [beq_iff_eq, hk])]
      simp only [dictGet]
      by_cases h2 : kv.1 = k2
      · simp [h2]
      · rw [if_neg (by simp [beq_iff_eq, h2]), if_neg (by simp [beq_iff_eq, h2])]
        exact ih

lemma dictGet_eq_none (u : Upd) (k : Str) :
    dictGet u k = none ↔ k ∉ dictKeys u := by
  induction u with
  | nil => simp [dictGet, dictKeys]
  | cons kv rest ih =>
    simp only [dictGet, dictKeys, List.map_cons, List.mem_cons]
    by_cases hk : kv.1 = k
    · simp [hk]
    · rw [if_neg (by simp [beq_iff_eq, hk])]
      simp only [dictKeys] at ih
      rw [ih]
      constructor
      · intro hh hc
        rcases hc with hc | hc
        · exact hk hc.symm
        · exact hh hc
      · intro hh hc
        exact hh (Or.inr hc)

lemma dictGet_isSome_of_mem (u : Upd) (k : Str) (h : k ∈ dictKeys u) :
    ∃ v, dictGet u k = some v := by
  cases hg : dictGet u k with
  | none => exact absurd h ((dictGet_eq_none u k).mp hg)
  | some v => exact ⟨v, rfl⟩

/-- Claim C10 (confirmed).  Provided the public IP lookup succeeded
(otherwise the call returns before the dict lookup), the settings-update
operation evaluates settings_to_change["RCONEnabled"] outside the
guarded try block: with the key absent the call raises an uncaught
KeyError, and with the key present it always returns a result dict,
whatever the document contains. -/
theorem rcon_lookup_outside_try (publicIp : Str) (U : Upd) (lines : List Str)
    (hip : publicIp ≠ []) :
    (rconKey ∉ dictKeys U →
      update_palworld_settings_ini publicIp U lines = .error ())
    ∧ (rconKey ∈ dictKeys U →
      ∃ out, update_palworld_settings_ini publicIp U lines = .ok out) := by
  have hne : rconKey ≠ pubKey := by decide
  constructor
  · intro hk
    have h1 : dictGet (dictAssign U pubKey ('"' :: (publicIp ++ ['"']))) rconKey = none := by
      rw [dictGet_assign_ne U pubKey _ rconKey hne]
      exact (dictGet_eq_none U rconKey).mpr hk
    simp [update_palworld_settings_ini, hip, h1]
  · intro hk
    obtain ⟨v, hv⟩ := dictGet_isSome_of_mem U rconKey hk
    have h1 : dictGet (dictAssign U pubKey ('"' :: (publicIp ++ ['"']))) rconKey = some v := by
      rw [dictGet_assign_ne U pubKey _ rconKey hne]
      exact hv
    cases hres : processAll (rconNorm (dictAssign U pubKey ('"' :: (publicIp ++ ['"']))) v) lines with
    | ok nl => exact ⟨(msgSuccess, nl), by simp [update_palworld_settings_ini, hip, h1, hres]⟩
    | error e =>
      cases e with
      | malformed =>
        exact ⟨(msgMalformed, lines), by simp [update_palworld_settings_ini, hip, h1, hres]⟩
      | keyError =>
        exact ⟨(msgWriteError, lines), by simp [update_palworld_settings_ini, hip, h1, hres]⟩

/-- Witness for rcon_lookup_outside_try: an update dict without the
RCONEnabled key makes the call raise. -/
theorem rcon_lookup_outside_try_witness :
    update_palworld_settings_ini "1.2.3.4".toList
      [("ServerName".toList, "x".toList)] ["OptionSettings=(A=1)\n".toList]
      = .error () :=
  (rcon_lookup_outside_try "1.2.3.4".toList
    [("ServerName".toList, "x".toList)] ["OptionSettings=(A=1)\n".toList]
    (by decide)).1 (by decide)

/-! ### Backup retention bound for the main pruning step (claim C3) -/

lemma prune_filter_comm (folders del : List Str) :
    (folders.filter (fun f => decide (f ∉ del))).filter hasAutoBackupTag
      = (folders.filter hasAutoBackupTag).filter (fun f => decide (f ∉ del)) := by
  rw [List.filter_filter, List.filter_filter]
  exact List.filter_congr (fun a _ => Bool.and_comm _ _)

lemma filter_not_mem_append (t d : List Str) (h : (t ++ d).Nodup) :
    (t ++ d).filter (fun f => decide (f ∉ t)) = d := by
  have hd := List.disjoint_of_nodup_append h
  rw [List.filter_append]
  rw [List.filter_eq_nil_iff.mpr (fun a ha => by simp [ha])]
  rw [List.filter_eq_self.mpr (fun a ha => by
    simp only [decide_eq_true_eq]
    exact fun hmem => hd hmem ha)]
  simp

lemma filter_not_mem_take (l : List Str) (k : Nat) (h : l.Nodup) :
    l.filter (fun f => decide (f ∉ l.take k)) = l.drop k := by
  have h2 := filter_not_mem_append (l.take k) (l.drop k)
    (by rw [List.take_append_drop]; exact h)
  rwa [List.take_append_drop] at h2

/-- Claim C3 (confirmed, main servermanager copy).  With a positive
retain count, after the pruning step the AutoBackup-tagged folders
number min(n, originalCount); up to order they are the tail of the
ascending sort of the original tagged folders (the lexicographically
largest ones); and every deleted folder sorts at or below every
surviving tagged folder. -/
theorem backup_retention_bound (folders : List Str) (n : Nat) (hn : 0 < n)
    (hnd : folders.Nodup) :
    ((backupPruneRemaining folders n).filter hasAutoBackupTag).length
      = min n (folders.filter hasAutoBackupTag).length
    ∧ ((backupPruneRemaining folders n).filter hasAutoBackupTag).Perm
        (((folders.filter hasAutoBackupTag).insertionSort strLeP).drop
          ((folders.filter hasAutoBackupTag).length - n))
    ∧ ∀ d ∈ backupPruneDeleted folders n,
        ∀ s ∈ (backupPruneRemaining folders n).filter hasAutoBackupTag,
          strLe d s = true := by
  set tg := folders.filter hasAutoBackupTag with htg
  set srt := tg.insertionSort strLeP with hsrt
  have hperm : srt.Perm tg := List.perm_insertionSort _ _
  have hnd2 : tg.Nodup := hnd.filter _
  have hndS : srt.Nodup := (hperm.nodup_iff).mpr hnd2
  have hlen : srt.length = tg.length := hperm.length_eq
  have hpw : List.Pairwise strLeP srt := List.sorted_insertionSort strLeP tg
  have hrem : backupPruneRemaining folders n
      = folders.filter (fun f => decide (f ∉ backupPruneDeleted folders n)) := rfl
  have hsurv : (backupPruneRemaining folders n).filter hasAutoBackupTag
      = tg.filter (fun f => decide (f ∉ backupPruneDeleted folders n)) := by
    rw [hrem, prune_filter_comm]
  by_cases hlarge : srt.length > n
  · have hdel : backupPruneDeleted folders n = srt.take (srt.length - n) := by
      unfold backupPruneDeleted
      rw [if_pos hn, ← htg, ← hsrt, if_pos hlarge]
    have hfd : srt.filter (fun f => decide (f ∉ srt.take (srt.length - n)))
        = srt.drop (srt.length - n) := filter_not_mem_take srt _ hndS
    have hsperm : ((backupPruneRemaining folders n).filter hasAutoBackupTag).Perm
        (srt.drop (srt.length - n)) := by
      rw [hsurv, hdel, ← hfd]
      exact List.Perm.filter _ hperm.symm
    refine ⟨?_, ?_, ?_⟩
    · rw [hsperm.length_eq, List.length_drop,
        Nat.min_eq_left (by omega : n ≤ tg.length)]
      omega
    · have : tg.length - n = srt.length - n := by omega
      rw [this]
      exact hsperm
    · intro d hd s hs
      rw [hdel] at hd
      have hs2 : s ∈ srt.drop (srt.length - n) := (hsperm.mem_iff).mp hs
      have hpw2 : List.Pairwise strLeP
          (srt.take (srt.length - n) ++ srt.drop (srt.length - n)) := by
        rw [List.take_append_drop]; exact hpw
      exact (List.pairwise_append.mp hpw2).2.2 d hd s hs2
  · have hdel : backupPruneDeleted folders n = [] := by
      unfold backupPruneDeleted
      rw [if_pos hn, ← htg, ← hsrt, if_neg hlarge]
    have hsurv2 : (backupPruneRemaining folders n).filter hasAutoBackupTag = tg := by
      rw [hsurv, hdel]
      exact List.filter_eq_self.mpr (fun a _ => by simp)
    refine ⟨?_, ?_, ?_⟩
    · rw [hsurv2, Nat.min_eq_right (by omega : tg.length ≤ n)]
    · rw [hsurv2]
      have : tg.length - n = 0 := by omega
      rw [this, List.drop_zero]
      exact hperm.symm
    · intro d hd
      rw [hdel] at hd
      simp at hd

/-- Witness for backup_retention_bound: four folders, one untagged,
retain two. -/
theorem backup_retention_bound_witness :
    ((backupPruneRemaining
        ["2024-01-01-AutoBackup".toList, "x".toList,
         "2024-01-02-AutoBackup".toList, "2024-01-03-AutoBackup".toList] 2).filter
          hasAutoBackupTag).length
      = min 2 ((["2024-01-01-AutoBackup".toList, "x".toList,
         "2024-01-02-AutoBackup".toList, "2024-01-03-AutoBackup".toList].filter
          hasAutoBackupTag)).length
    ∧ ((backupPruneRemaining
        ["2024-01-01-AutoBackup".toList, "x".toList,
         "2024-01-02-AutoBackup".toList, "2024-01-03-AutoBackup".toList] 2).filter
          hasAutoBackupTag).Perm
        (((["2024-01-01-AutoBackup".toList, "x".toList,
         "2024-01-02-AutoBackup".toList, "2024-01-03-AutoBackup".toList].filter
          hasAutoBackupTag).insertionSort strLeP).drop
          ((["2024-01-01-AutoBackup".toList, "x".toList,
         "2024-01-02-AutoBackup".toList, "2024-01-03-AutoBackup".toList].filter
          hasAutoBackupTag).length - 2))
    ∧ ∀ d ∈ backupPruneDeleted
        ["2024-01-01-AutoBackup".toList, "x".toList,
         "2024-01-02-AutoBackup".toList, "2024-01-03-AutoBackup".toList] 2,
        ∀ s ∈ (backupPruneRemaining
        ["2024-01-01-AutoBackup".toList, "x".toList,
         "2024-01-02-AutoBackup".toList, "2024-01-03-AutoBackup".toList] 2).filter
          hasAutoBackupTag,
          strLe d s = true :=
  backup_retention_bound
    ["2024-01-01-AutoBackup".toList, "x".toList,
     "2024-01-02-AutoBackup".toList, "2024-01-03-AutoBackup".toList] 2
    (by decide) (by decide)

/-! ### String lemmas for the settings merge -/

lemma headNotWS_dropWhile (l : Str) : headNotWS (l.dropWhile pyWS) = true := by
  induction l with
  | nil => rfl
  | cons c t ih =>
    rw [List.dropWhile_cons]
    by_cases h : pyWS c = true
    · rw [if_pos h]; exact ih
    · rw [if_neg h]; simp [headNotWS, h]

lemma dropWhile_eq_self_of_headNotWS (l : Str) (h : headNotWS l = true) :
    l.dropWhile pyWS = l := by
  cases l with
  | nil => rfl
  | cons c t =>
    simp only [headNotWS, List.head?_cons, Bool.not_eq_true'] at h
    rw [List.dropWhile_cons, if_neg (by simp [h])]

lemma headNotWS_of_prefix (v s : Str) (h : headNotWS (v ++ s) = true) :
    headNotWS v = true := by
  cases v with
  | nil => rfl
  | cons c t => simpa [headNotWS] using h

lemma pyStrip_decomp (l : Str) :
    l.dropWhile pyWS = pyStrip l ++ ((l.dropWhile pyWS).reverse.takeWhile pyWS).reverse := by
  unfold pyStrip
  conv_lhs => rw [← List.reverse_reverse (l.dropWhile pyWS),
    ← List.takeWhile_append_dropWhile pyWS (l.dropWhile pyWS).reverse,
    List.reverse_append]

lemma headNotWS_reverse (l : Str) : headNotWS l.reverse = lastNotWS l := by
  unfold headNotWS lastNotWS
  rw [List.head?_reverse]

lemma headNotWS_pyStrip (l : Str) : headNotWS (pyStrip l) = true := by
  have h := headNotWS_dropWhile l
  rw [pyStrip_decomp l] at h
  exact headNotWS_of_prefix _ _ h

lemma lastNotWS_pyStrip (l : Str) : lastNotWS (pyStrip l) = true := by
  have h := headNotWS_dropWhile ((l.dropWhile pyWS).reverse)
  unfold pyStrip
  rw [← headNotWS_reverse, List.reverse_reverse]
  exact h

lemma pyStrip_eq_self (l : Str) (h1 : headNotWS l = true) (h2 : lastNotWS l = true) :
    pyStrip l = l := by
  unfold pyStrip
  rw [dropWhile_eq_self_of_headNotWS l h1]
  rw [dropWhile_eq_self_of_headNotWS l.reverse (by rw [headNotWS_reverse]; exact h2)]
  exact List.reverse_reverse l

lemma pyStrip_idem (l : Str) : pyStrip (pyStrip l) = pyStrip l :=
  pyStrip_eq_self _ (headNotWS_pyStrip l) (lastNotWS_pyStrip l)

lemma mem_of_mem_dropWhileWS (c : Char) (l : Str) (h : c ∈ l.dropWhile pyWS) : c ∈ l := by
  have h2 := List.takeWhile_append_dropWhile pyWS l
  rw [← h2]
  exact List.mem_append_right _ h

lemma mem_of_mem_pyStrip (c : Char) (l : Str) (h : c ∈ pyStrip l) : c ∈ l := by
  unfold pyStrip at h
  rw [List.mem_reverse] at h
  have h2 := mem_of_mem_dropWhileWS c _ h
  rw [List.mem_reverse] at h2
  exact mem_of_mem_dropWhileWS c _ h2

lemma partitionEq_fst_no_eq (t : Str) : '=' ∉ (partitionEq t).1 := by
  intro h
  have h2 := List.mem_takeWhile_imp h
  simp at h2

lemma stripKey_no_eq (t : Str) : '=' ∉ stripKey t := fun h =>
  partitionEq_fst_no_eq t (mem_of_mem_pyStrip _ _ h)

lemma takeWhile_no_eq (k v : Str) (h : '=' ∉ k) :
    (k ++ '=' :: v).takeWhile (fun c => !(c == '=')) = k := by
  induction k with
  | nil => simp [List.takeWhile_cons]
  | cons c t ih =>
    have hc : ¬ c = '=' := fun hh => h (by rw [hh]; exact List.mem_cons_self _ _)
    rw [List.cons_append, List.takeWhile_cons, if_pos (by simp [hc])]
    rw [ih (fun hm => h (List.mem_cons_of_mem _ hm))]

lemma dropWhile_no_eq (k v : Str) (h : '=' ∉ k) :
    (k ++ '=' :: v).dropWhile (fun c => !(c == '=')) = '=' :: v := by
  induction k with
  | nil => simp [List.dropWhile_cons]
  | cons c t ih =>
    have hc : ¬ c = '=' := fun hh => h (by rw [hh]; exact List.mem_cons_self _ _)
    rw [List.cons_append, List.dropWhile_cons, if_pos (by simp [hc])]
    exact ih (fun hm => h (List.mem_cons_of_mem _ hm))

lemma partitionEq_append (k v : Str) (h : '=' ∉ k) :
    partitionEq (k ++ '=' :: v) = (k, v) := by
  unfold partitionEq
  rw [takeWhile_no_eq k v h, dropWhile_no_eq k v h]

lemma stripKey_append (k v : Str) (h : '=' ∉ k) (hs : pyStrip k = k) :
    stripKey (k ++ '=' :: v) = k := by
  unfold stripKey
  rw [partitionEq_append k v h]
  exact hs

lemma quote_idem (v : Str) :
    quote_value_if_needed (quote_value_if_needed v) = quote_value_if_needed v := by
  unfold quote_value_if_needed
  by_cases h1 : (v.head? == some '"' && v.getLast? == some '"') = true
  · rw [if_pos h1, if_pos h1]
  · rw [if_neg h1]
    by_cases h2 : (v.any (fun c => c == ' ' || c == ',' || c == '(' || c == ')')
        || v.contains ' ') = true
    · rw [if_pos h2]
      have hgl : ('"' :: (v ++ ['"'])).getLast? = some '"' := by
        rw [show ('"' :: (v ++ ['"'])) = ('"' :: v) ++ ['"'] from by simp,
          List.getLast?_concat]
      rw [if_pos (by simp [hgl])]
    · rw [if_neg h2, if_neg h1, if_neg h2]

lemma countQuotes_append (a b : Str) :
    countQuotes (a ++ b) = countQuotes a + countQuotes b := by
  unfold countQuotes
  exact List.countP_append _ a b

lemma countQuotes_eq_zero (l : Str) : countQuotes l = 0 ↔ '"' ∉ l := by
  unfold countQuotes
  rw [List.countP_eq_zero]
  constructor
  · intro h hm
    have := h _ hm
    simp at this
  · intro h a ha
    simp only [beq_iff_eq]
    exact fun hh => h (hh ▸ ha)

lemma countQuotes_wrap (x : Str) :
    countQuotes ('"' :: (x ++ ['"'])) = countQuotes x + 2 := by
  unfold countQuotes
  simp only [List.countP_cons, List.countP_append, List.countP_nil, beq_self_eq_true]
  simp

lemma getLast_wrap (x : Str) : ('"' :: (x ++ ['"'])).getLast? = some '"' := by
  rw [show ('"' :: (x ++ ['"'])) = ('"' :: x) ++ ['"'] from by simp, List.getLast?_concat]

lemma valueBalanced_elim (v : Str) (h : valueBalanced v = true) :
    countQuotes v = 0 ∨ ∃ w, v = '"' :: (w ++ ['"']) ∧ countQuotes w = 0 := by
  unfold valueBalanced at h
  rw [Bool.or_eq_true] at h
  rcases h with h | h
  · left; simpa using h
  · right
    rw [Bool.and_eq_true, Bool.and_eq_true, Bool.and_eq_true] at h
    obtain ⟨⟨⟨hlen, hhead⟩, hlast⟩, hcount⟩ := h
    have hlen2 : 2 ≤ v.length := of_decide_eq_true hlen
    have hhead2 : v.head? = some '"' := by simpa using hhead
    have hlast2 : v.getLast? = some '"' := by simpa using hlast
    have hcount2 : countQuotes v = 2 := by simpa using hcount
    cases v with
    | nil => simp at hhead2
    | cons c t =>
      have hc : c = '"' := by simpa using hhead2
      subst hc
      rcases List.eq_nil_or_concat t with ht | ⟨w, a, hw⟩
      · subst ht; simp at hlen2
      · rw [List.concat_eq_append] at hw
        subst hw
        have ha : a = '"' := by
          rw [show ('"' :: (w ++ [a])) = ('"' :: w) ++ [a] from by simp,
            List.getLast?_concat] at hlast2
          simpa using hlast2
        subst ha
        refine ⟨w, rfl, ?_⟩
        rw [countQuotes_wrap] at hcount2
        omega

lemma noBreak_of_no_comma (v : Str) (h : ',' ∉ v) : noBreakTok v = true := by
  induction v with
  | nil => rfl
  | cons c t ih =>
    have hc : ¬ c = ',' := fun hh => h (by rw [hh]; exact List.mem_cons_self _ _)
    unfold noBreakTok
    rw [Bool.and_eq_true]
    exact ⟨by rw [if_neg (by simp [hc])], ih (fun hm => h (List.mem_cons_of_mem _ hm))⟩

lemma noBreak_quote_free_concat (v : Str) (h : countQuotes v = 0) :
    noBreakTok (v ++ ['"']) = true := by
  induction v with
  | nil => decide
  | cons c t ih =>
    have hct : countQuotes t = 0 := by
      unfold countQuotes at h ⊢
      rw [List.countP_cons] at h
      omega
    rw [List.cons_append]
    unfold noBreakTok
    rw [Bool.and_eq_true]
    refine ⟨?_, ih hct⟩
    by_cases hc : c = ','
    · rw [if_pos (by simp [hc])]
      have h2 : countQuotes (t ++ ['"']) = 1 := by
        rw [countQuotes_append, hct]
        rfl
      rw [h2]
      decide
    · rw [if_neg (by simp [hc])]

lemma noBreak_append_left (a b : Str) (ha : ',' ∉ a) (hb : noBreakTok b = true) :
    noBreakTok (a ++ b) = true := by
  induction a with
  | nil => simpa
  | cons c t ih =>
    have hc : ¬ c = ',' := fun hh => ha (by rw [hh]; exact List.mem_cons_self _ _)
    rw [List.cons_append]
    unfold noBreakTok
    rw [Bool.and_eq_true]
    exact ⟨by rw [if_neg (by simp [hc])], ih (fun hm => ha (List.mem_cons_of_mem _ hm))⟩

lemma countQuotes_quote (v : Str) (h : valueBalanced v = true) :
    countQuotes (quote_value_if_needed v) % 2 = 0 := by
  rcases valueBalanced_elim v h with h0 | ⟨w, hw, hw0⟩
  · unfold quote_value_if_needed
    by_cases h1 : (v.head? == some '"' && v.getLast? == some '"') = true
    · rw [if_pos h1]; simp [h0]
    · rw [if_neg h1]
      by_cases h2 : ((v.any fun c => c == ' ' || c == ',' || c == '(' || c == ')')
          || v.contains ' ') = true
      · rw [if_pos h2, show ('"' :: v ++ ['"']) = '"' :: (v ++ ['"']) from by simp,
          countQuotes_wrap, h0]
      · rw [if_neg h2]; simp [h0]
  · subst hw
    unfold quote_value_if_needed
    rw [if_pos (by simp [getLast_wrap])]
    rw [countQuotes_wrap, hw0]

lemma noBreak_quote (v : Str) (h : valueBalanced v = true) :
    noBreakTok (quote_value_if_needed v) = true := by
  rcases valueBalanced_elim v h with h0 | ⟨w, hw, hw0⟩
  · unfold quote_value_if_needed
    by_cases h1 : (v.head? == some '"' && v.getLast? == some '"') = true
    · exfalso
      rw [Bool.and_eq_true] at h1
      have hh : v.head? = some '"' := by simpa using h1.1
      cases v with
      | nil => simp at hh
      | cons c t =>
        have hc : c = '"' := by simpa using hh
        subst hc
        rw [countQuotes_eq_zero] at h0
        exact h0 (List.mem_cons_self _ _)
    · rw [if_neg h1]
      by_cases h2 : ((v.any fun c => c == ' ' || c == ',' || c == '(' || c == ')')
          || v.contains ' ') = true
      · rw [if_pos h2, show ('"' :: v ++ ['"']) = '"' :: (v ++ ['"']) from by simp]
        unfold noBreakTok
        rw [Bool.and_eq_true]
        exact ⟨by rw [if_neg (by decide)], noBreak_quote_free_concat v h0⟩
      · rw [if_neg h2]
        apply noBreak_of_no_comma
        intro hm
        apply h2
        rw [Bool.or_eq_true]
        left
        rw [List.any_eq_true]
        exact ⟨',', hm, by decide⟩
  · subst hw
    unfold quote_value_if_needed
    rw [if_pos (by simp [getLast_wrap])]
    unfold noBreakTok
    rw [Bool.and_eq_true]
    exact ⟨by rw [if_neg (by decide)], noBreak_quote_free_concat w hw0⟩

lemma headNotWS_append_left (k rest : Str) (hk : headNotWS k = true)
    (hrest : headNotWS rest = true) : headNotWS (k ++ rest) = true := by
  cases k with
  | nil => simpa
  | cons c t => simpa [headNotWS] using hk

lemma headNotWS_eq_cons (qv : Str) : headNotWS ('=' :: qv) = true := by
  unfold headNotWS
  rw [List.head?_cons]
  decide

lemma noBreak_eq_cons (qv : Str) (h : noBreakTok qv = true) :
    noBreakTok ('=' :: qv) = true := by
  unfold noBreakTok
  rw [Bool.and_eq_true]
  exact ⟨by rw [if_neg (by decide)], h⟩

lemma goodTok_build (k qv : Str) (hkq : '"' ∉ k) (hkc : ',' ∉ k)
    (hks : headNotWS k = true)
    (hq : countQuotes qv % 2 = 0) (hnb : noBreakTok qv = true) :
    goodTok (k ++ '=' :: qv) = true := by
  unfold goodTok
  rw [Bool.and_eq_true, Bool.and_eq_true]
  refine ⟨⟨?_, ?_⟩, ?_⟩
  · have hk0 : countQuotes k = 0 := (countQuotes_eq_zero k).mpr hkq
    have h3 : countQuotes (k ++ '=' :: qv) = countQuotes qv := by
      rw [countQuotes_append, hk0]
      unfold countQuotes
      rw [List.countP_cons]
      simp
    rw [h3]
    simp [hq]
  · exact noBreak_append_left k _ hkc (noBreak_eq_cons qv hnb)
  · exact headNotWS_append_left k _ hks (headNotWS_eq_cons qv)
/-! ### Round trip of the quote-aware split over rebuilt token lists -/

lemma splitAux_nil_eq (acc : Str) (skip : Bool) :
    split_settings_aux [] acc skip = [acc.reverse] := rfl

lemma splitAux_cons_eq (c : Char) (rest acc : Str) (skip : Bool) :
    split_settings_aux (c :: rest) acc skip
      = if skip && pyWS c then split_settings_aux rest acc true
        else if c == ',' && countQuotes rest % 2 == 0 then
          acc.reverse :: split_settings_aux rest [] true
        else split_settings_aux rest (c :: acc) false := rfl

lemma splitAux_scan (rest : Str) (hrest : countQuotes rest % 2 = 0) :
    ∀ (t acc : Str), noBreakTok t = true →
      split_settings_aux (t ++ rest) acc false
        = split_settings_aux rest (t.reverse ++ acc) false := by
  intro t
  induction t with
  | nil => intro acc _; simp
  | cons c u ih =>
    intro acc hnb
    unfold noBreakTok at hnb
    rw [Bool.and_eq_true] at hnb
    have hnb2 : noBreakTok u = true := hnb.2
    have hcond : (c == ',' && (countQuotes (u ++ rest) % 2 == 0)) = false := by
      by_cases hc : c = ','
      · have h1 : countQuotes u % 2 = 1 := by
          have h2 := hnb.1
          rw [if_pos (by simp [hc])] at h2
          simpa using h2
        have h3 : countQuotes (u ++ rest) % 2 = 1 := by
          rw [countQuotes_append]
          omega
        simp [h3]
      · simp [hc]
    rw [List.cons_append, splitAux_cons_eq]
    rw [if_neg (by simp), if_neg (by simp [hcond])]
    rw [ih (c :: acc) hnb2]
    rw [List.reverse_cons, List.append_assoc]
    rfl

lemma splitAux_skip_eq (u acc : Str) (h : headNotWS u = true) :
    split_settings_aux u acc true = split_settings_aux u acc false := by
  cases u with
  | nil => rfl
  | cons c t =>
    have hc : pyWS c = false := by
      simpa [headNotWS, Bool.not_eq_true'] using h
    rw [splitAux_cons_eq, splitAux_cons_eq]
    rw [if_neg (show ¬((true && pyWS c) = true) by simp [hc])]
    rw [if_neg (show ¬((false && pyWS c) = true) by simp)]

lemma countQuotes_comma_cons (x : Str) :
    countQuotes (',' :: x) = countQuotes x := by
  unfold countQuotes
  rw [List.countP_cons]
  simp

lemma countQuotes_joinComma (ts : List Str) (h : ∀ t ∈ ts, countQuotes t % 2 = 0) :
    countQuotes (joinComma ts) % 2 = 0 := by
  induction ts with
  | nil => rfl
  | cons t ts2 ih =>
    cases ts2 with
    | nil => exact h t (List.mem_cons_self _ _)
    | cons t2 ts3 =>
      show countQuotes (t ++ ',' :: joinComma (t2 :: ts3)) % 2 = 0
      rw [countQuotes_append, countQuotes_comma_cons]
      have h2 := ih (fun x hx => h x (List.mem_cons_of_mem _ hx))
      have h3 := h t (List.mem_cons_self _ _)
      omega

lemma headNotWS_joinComma (ts : List Str) (h : ∀ t ∈ ts, headNotWS t = true) :
    headNotWS (joinComma ts) = true := by
  cases ts with
  | nil => rfl
  | cons t ts2 =>
    cases ts2 with
    | nil => exact h t (List.mem_cons_self _ _)
    | cons t2 ts3 =>
      show headNotWS (t ++ ',' :: joinComma (t2 :: ts3)) = true
      apply headNotWS_append_left t _ (h t (List.mem_cons_self _ _))
      unfold headNotWS
      rw [List.head?_cons]
      decide

lemma goodTok_even (t : Str) (h : goodTok t = true) : countQuotes t % 2 = 0 := by
  unfold goodTok at h
  rw [Bool.and_eq_true, Bool.and_eq_true] at h
  simpa using h.1.1

lemma goodTok_noBreak (t : Str) (h : goodTok t = true) : noBreakTok t = true := by
  unfold goodTok at h
  rw [Bool.and_eq_true, Bool.and_eq_true] at h
  exact h.1.2

lemma goodTok_head (t : Str) (h : goodTok t = true) : headNotWS t = true := by
  unfold goodTok at h
  rw [Bool.and_eq_true, Bool.and_eq_true] at h
  exact h.2

lemma split_join (ts : List Str) (hne : ts ≠ [])
    (h : ∀ t ∈ ts, goodTok t = true) :
    split_settings_string (joinComma ts) = ts := by
  unfold split_settings_string
  induction ts with
  | nil => exact absurd rfl hne
  | cons t ts2 ih =>
    have hnb := goodTok_noBreak t (h t (List.mem_cons_self _ _))
    cases ts2 with
    | nil =>
      have h2 := splitAux_scan [] (by rfl) t [] hnb
      rw [List.append_nil] at h2
      show split_settings_aux t [] false = [t]
      rw [h2, splitAux_nil_eq]
      simp
    | cons t2 ts3 =>
      have heven : countQuotes (joinComma (t2 :: ts3)) % 2 = 0 :=
        countQuotes_joinComma (t2 :: ts3)
          (fun x hx => goodTok_even x (h x (List.mem_cons_of_mem _ hx)))
      have hrest : countQuotes (',' :: joinComma (t2 :: ts3)) % 2 = 0 := by
        rw [countQuotes_comma_cons]
        exact heven
      show split_settings_aux (joinComma (t :: t2 :: ts3)) [] false = t :: t2 :: ts3
      have hj : joinComma (t :: t2 :: ts3) = t ++ ',' :: joinComma (t2 :: ts3) := rfl
      rw [hj, splitAux_scan _ hrest t [] hnb, splitAux_cons_eq]
      rw [if_neg (by simp), if_pos (by simp [heven])]
      rw [splitAux_skip_eq _ _ (headNotWS_joinComma (t2 :: ts3)
        (fun x hx => goodTok_head x (h x (List.mem_cons_of_mem _ hx))))]
      rw [ih (by simp) (fun x hx => h x (List.mem_cons_of_mem _ hx))]
      simp

lemma split_settings_string_ne_nil (s : Str) : split_settings_string s ≠ [] := by
  unfold split_settings_string
  generalize hacc : ([] : Str) = acc
  generalize hskip : false = skip
  clear hacc hskip
  induction s generalizing acc skip with
  | nil => simp [splitAux_nil_eq]
  | cons c t ih =>
    rw [splitAux_cons_eq]
    by_cases h1 : (skip && pyWS c) = true
    · rw [if_pos h1]; exact ih _ _
    · rw [if_neg h1]
      by_cases h2 : (c == ',' && countQuotes t % 2 == 0) = true
      · rw [if_pos h2]; simp
      · rw [if_neg h2]; exact ih _ _

lemma joinComma_ne_nil (t : Str) (ts : List Str) (ht : t ≠ []) :
    joinComma (t :: ts) ≠ [] := by
  cases ts with
  | nil => exact ht
  | cons t2 ts3 =>
    show t ++ ',' :: joinComma (t2 :: ts3) ≠ []
    simp

/-! ### Dict bookkeeping for the token loop -/

lemma dictContains_iff (u : Upd) (k : Str) : dictContains u k = true ↔ k ∈ dictKeys u := by
  unfold dictContains
  constructor
  · intro h
    rw [List.contains_eq_any_beq, List.any_eq_true] at h
    obtain ⟨x, hx, he⟩ := h
    rw [beq_iff_eq] at he
    exact he ▸ hx
  · intro h
    rw [List.contains_eq_any_beq, List.any_eq_true]
    exact ⟨k, h, by simp⟩

lemma filterKeysNotIn_nil_keys (u : Upd) : filterKeysNotIn u [] = u := by
  unfold filterKeysNotIn
  exact List.filter_eq_self.mpr (fun a _ => by simp)

lemma filterKeysNotIn_congr (u : Upd) (k1 k2 : List Str) (h : ∀ x, x ∈ k1 ↔ x ∈ k2) :
    filterKeysNotIn u k1 = filterKeysNotIn u k2 := by
  unfold filterKeysNotIn
  exact List.filter_congr (fun a _ => decide_eq_decide.mpr (not_congr (h a.1)))

lemma mem_filterKeysNotIn (u : Upd) (ks : List Str) (kv : Str × Str) :
    kv ∈ filterKeysNotIn u ks ↔ kv ∈ u ∧ kv.1 ∉ ks := by
  unfold filterKeysNotIn
  rw [List.mem_filter]
  simp

lemma dictGet_mem (k v : Str) : ∀ u : Upd, dictGet u k = some v → (k, v) ∈ u := by
  intro u
  induction u with
  | nil => intro h; simp [dictGet] at h
  | cons kv rest ih =>
    intro h
    unfold dictGet at h
    by_cases hk : kv.1 = k
    · rw [if_pos (by simp [hk])] at h
      have hv : kv.2 = v := by simpa using h
      have h2 : (k, v) = kv := by rw [← hk, ← hv]
      rw [h2]
      exact List.mem_cons_self _ _
    · rw [if_neg (by simp [hk])] at h
      exact List.mem_cons_of_mem _ (ih h)

lemma dictGet_of_mem_nodup (k v : Str) :
    ∀ u : Upd, (dictKeys u).Nodup → (k, v) ∈ u → dictGet u k = some v := by
  intro u
  induction u with
  | nil => intro _ h; simp at h
  | cons kv rest ih =>
    intro hnd h
    simp only [dictKeys, List.map_cons, List.nodup_cons] at hnd
    rcases List.mem_cons.mp h with h1 | h1
    · rw [← h1]
      unfold dictGet
      rw [if_pos (by simp)]
    · have hne : kv.1 ≠ k := by
        intro hh
        apply hnd.1
        rw [hh]
        exact List.mem_map_of_mem Prod.fst h1
      unfold dictGet
      rw [if_neg (by simp [hne])]
      exact ih hnd.2 h1

lemma dictPop_filter (k : Str) (done : List Str) (hkd : k ∉ done) :
    ∀ u : Upd, (dictKeys u).Nodup → k ∈ dictKeys u →
      dictPop (filterKeysNotIn u done) k = some (filterKeysNotIn u (k :: done)) := by
  intro u
  induction u with
  | nil => intro _ hk; simp [dictKeys] at hk
  | cons kv rest ih =>
    intro hnd hk
    simp only [dictKeys, List.map_cons, List.nodup_cons] at hnd
    by_cases hkk : kv.1 = k
    · have hkvd : kv.1 ∉ done := by rw [hkk]; exact hkd
      have hf1 : filterKeysNotIn (kv :: rest) done = kv :: filterKeysNotIn rest done := by
        unfold filterKeysNotIn
        rw [List.filter_cons_of_pos (by simp [hkvd])]
      have hf2 : filterKeysNotIn (kv :: rest) (k :: done)
          = filterKeysNotIn rest (k :: done) := by
        unfold filterKeysNotIn
        rw [List.filter_cons_of_neg (by simp [hkk])]
      have hkr : k ∉ dictKeys rest := by rw [← hkk]; exact hnd.1
      have hf3 : filterKeysNotIn rest (k :: done) = filterKeysNotIn rest done := by
        unfold filterKeysNotIn
        apply List.filter_congr
        intro x hx
        have hxk : x.1 ≠ k := by
          intro hh
          exact hkr (hh ▸ List.mem_map_of_mem Prod.fst hx)
        apply decide_eq_decide.mpr
        simp [List.mem_cons, hxk]
      rw [hf1, hf2, hf3]
      unfold dictPop
      rw [if_pos (by simp [hkk])]
    · have hk2 : k ∈ dictKeys rest := by
        simp only [dictKeys, List.map_cons, List.mem_cons] at hk
        rcases hk with hk | hk
        · exact absurd hk.symm hkk
        · exact hk
      by_cases hd : kv.1 ∈ done
      · have hf1 : filterKeysNotIn (kv :: rest) done = filterKeysNotIn rest done := by
          unfold filterKeysNotIn
          rw [List.filter_cons_of_neg (by simp [hd])]
        have hf2 : filterKeysNotIn (kv :: rest) (k :: done)
            = filterKeysNotIn rest (k :: done) := by
          unfold filterKeysNotIn
          rw [List.filter_cons_of_neg (by simp [List.mem_cons, hd])]
        rw [hf1, hf2]
        exact ih hnd.2 hk2
      · have hf1 : filterKeysNotIn (kv :: rest) done = kv :: filterKeysNotIn rest done := by
          unfold filterKeysNotIn
          rw [List.filter_cons_of_pos (by simp [hd])]
        have hf2 : filterKeysNotIn (kv :: rest) (k :: done)
            = kv :: filterKeysNotIn rest (k :: done) := by
          unfold filterKeysNotIn
          rw [List.filter_cons_of_pos (by simp [List.mem_cons, hkk, hd])]
        rw [hf1, hf2]
        unfold dictPop
        rw [if_neg (by simp [hkk])]
        rw [ih hnd.2 hk2]
        rfl
lemma filterKeysNotIn_congr2 (u : Upd) (k1 k2 : List Str)
    (h : ∀ kv ∈ u, (kv.1 ∈ k1 ↔ kv.1 ∈ k2)) :
    filterKeysNotIn u k1 = filterKeysNotIn u k2 := by
  unfold filterKeysNotIn
  exact List.filter_congr (fun a ha => decide_eq_decide.mpr (not_congr (h a ha)))

lemma processTokens_cons_eq (s2 : Upd) (t : Str) (ts : List Str) (leftover : Upd) :
    processTokens s2 (t :: ts) leftover
      = if dictContains s2 (stripKey t) then
          match dictPop leftover (stripKey t) with
          | none => .error .keyError
          | some leftover2 =>
            match processTokens s2 ts leftover2 with
            | .error e => .error e
            | .ok (l, lo) =>
              .ok ((stripKey t
                  ++ '=' :: quote_value_if_needed ((dictGet s2 (stripKey t)).getD [])) :: l,
                lo)
        else
          match processTokens s2 ts leftover with
          | .error e => .error e
          | .ok (l, lo) =>
            .ok ((stripKey t ++ '=' :: quote_value_if_needed (partitionEq t).2) :: l, lo) :=
  rfl

lemma transformToken_pos (s2 : Upd) (t : Str) (hc : dictContains s2 (stripKey t) = true) :
    transformToken s2 t
      = stripKey t ++ '=' :: quote_value_if_needed ((dictGet s2 (stripKey t)).getD []) := by
  unfold transformToken
  rw [if_pos hc]

lemma transformToken_neg (s2 : Upd) (t : Str) (hc : ¬ dictContains s2 (stripKey t) = true) :
    transformToken s2 t
      = stripKey t ++ '=' :: quote_value_if_needed (partitionEq t).2 := by
  unfold transformToken
  rw [if_neg hc]

lemma processTokens_eq (s2 : Upd) (hnd : (dictKeys s2).Nodup) :
    ∀ (ts : List Str) (done : List Str),
      (ts.map stripKey).Nodup →
      (∀ t ∈ ts, stripKey t ∉ done) →
      processTokens s2 ts (filterKeysNotIn s2 done)
        = .ok (ts.map (transformToken s2),
            filterKeysNotIn s2 (done ++ ts.map stripKey)) := by
  intro ts
  induction ts with
  | nil =>
    intro done _ _
    simp [processTokens]
  | cons t ts ih =>
    intro done hndk hdone
    simp only [List.map_cons, List.nodup_cons] at hndk
    rw [processTokens_cons_eq]
    by_cases hc : dictContains s2 (stripKey t) = true
    · have hkmem : stripKey t ∈ dictKeys s2 := (dictContains_iff s2 _).mp hc
      rw [if_pos hc]
      rw [dictPop_filter (stripKey t) done (hdone t (List.mem_cons_self _ _)) s2 hnd hkmem]
      show (match processTokens s2 ts (filterKeysNotIn s2 (stripKey t :: done)) with
          | .error e => Except.error e
          | .ok (l, lo) =>
            Except.ok ((stripKey t
                ++ '=' :: quote_value_if_needed ((dictGet s2 (stripKey t)).getD [])) :: l,
              lo)) = _
      rw [ih (stripKey t :: done) hndk.2 (fun x hx => by
        simp only [List.mem_cons]
        push_neg
        exact ⟨fun hh => hndk.1 (hh ▸ List.mem_map_of_mem stripKey hx),
          hdone x (List.mem_cons_of_mem _ hx)⟩)]
      show Except.ok ((stripKey t
            ++ '=' :: quote_value_if_needed ((dictGet s2 (stripKey t)).getD []))
              :: ts.map (transformToken s2),
          filterKeysNotIn s2 ((stripKey t :: done) ++ ts.map stripKey)) = _
      rw [List.map_cons, transformToken_pos s2 t hc]
      congr 1
      rw [Prod.mk.injEq]
      refine ⟨rfl, ?_⟩
      apply filterKeysNotIn_congr
      intro x
      simp only [List.map_cons, List.mem_append, List.mem_cons]
      tauto
    · have hnk : stripKey t ∉ dictKeys s2 := fun hmem => hc ((dictContains_iff s2 _).mpr hmem)
      rw [if_neg hc]
      rw [ih done hndk.2 (fun x hx => hdone x (List.mem_cons_of_mem _ hx))]
      show Except.ok ((stripKey t ++ '=' :: quote_value_if_needed (partitionEq t).2)
            :: ts.map (transformToken s2),
          filterKeysNotIn s2 (done ++ ts.map stripKey)) = _
      rw [List.map_cons, transformToken_neg s2 t hc]
      congr 1
      rw [Prod.mk.injEq]
      refine ⟨rfl, ?_⟩
      apply filterKeysNotIn_congr2
      intro kv hkv
      have hne : kv.1 ≠ stripKey t := by
        intro hh
        exact hnk (hh ▸ List.mem_map_of_mem Prod.fst hkv)
      simp only [List.map_cons, List.mem_append, List.mem_cons]
      constructor
      · intro hx
        rcases hx with hx | hx
        · exact Or.inl hx
        · exact Or.inr (Or.inr hx)
      · intro hx
        rcases hx with hx | hx | hx
        · exact Or.inl hx
        · exact absurd hx hne
        · exact Or.inr hx

/-! ### Characterizing the directive rewrite -/

lemma findIdx?_append_not (p : Char → Bool) :
    ∀ (pfx : Str), (∀ c ∈ pfx, p c = false) →
      ∀ (l : Str) (i : Nat),
        List.findIdx? p (pfx ++ l) i = List.findIdx? p l (i + pfx.length) := by
  intro pfx
  induction pfx with
  | nil => intro _ l i; simp
  | cons c t ih =>
    intro hp l i
    rw [List.cons_append, List.findIdx?_cons,
      if_neg (by simp [hp c (List.mem_cons_self _ _)])]
    rw [ih (fun x hx => hp x (List.mem_cons_of_mem _ hx)) l (i + 1)]
    congr 1
    simp only [List.length_cons]
    omega

lemma pyFind_mkDirLine (inner : Str) : pyFind (mkDirLine inner) '(' = 15 := by
  unfold pyFind mkDirLine
  rw [findIdx?_append_not _ optionSettingsMarker (by decide) _ 0]
  rw [List.findIdx?_cons, if_pos (by decide)]
  have hl : (0 + optionSettingsMarker.length) = 15 := by decide
  rw [hl]
  rfl

lemma reverse_mkDirLine (inner : Str) :
    (mkDirLine inner).reverse
      = '\n' :: ')' :: (inner.reverse ++ ('(' :: optionSettingsMarker.reverse)) := by
  unfold mkDirLine
  simp

lemma length_mkDirLine (inner : Str) : (mkDirLine inner).length = inner.length + 18 := by
  have hm : optionSettingsMarker.length = 15 := by decide
  unfold mkDirLine
  simp only [List.length_append, List.length_cons, List.length_nil]
  omega

lemma pyRfind_mkDirLine (inner : Str) :
    pyRfind (mkDirLine inner) ')' = ((16 + inner.length : Nat) : Int) := by
  unfold pyRfind
  rw [reverse_mkDirLine]
  rw [List.findIdx?_cons, if_neg (by decide), List.findIdx?_cons, if_pos (by decide)]
  rw [length_mkDirLine]
  show (((inner.length + 18) - 1 - (0 + 1) : Nat) : Int) = ((16 + inner.length : Nat) : Int)
  congr 1
  omega

lemma pySubstr_mkDirLine (inner : Str) :
    pySubstr (mkDirLine inner) 16 (16 + inner.length) = inner := by
  unfold pySubstr mkDirLine
  have h1 : optionSettingsMarker ++ '(' :: (inner ++ [')', '\n'])
      = (optionSettingsMarker ++ ['(']) ++ (inner ++ [')', '\n']) := by simp
  rw [h1]
  have h3 : 16 + inner.length - 16 = inner.length := by omega
  rw [h3]
  have h2 : (optionSettingsMarker ++ ['(']).length = 16 := by decide
  rw [← h2, List.drop_left]
  exact List.take_left inner _

lemma isPrefixOf_append_self (l r : Str) : l.isPrefixOf (l ++ r) = true := by
  induction l with
  | nil => simp [List.isPrefixOf]
  | cons c t ih => simp [List.isPrefixOf, ih]

lemma isDirective_mkDirLine (inner : Str) : isDirective (mkDirLine inner) = true := by
  unfold isDirective mkDirLine
  exact isPrefixOf_append_self _ _

lemma processDirective_ok (s2 : Upd) (hnd : (dictKeys s2).Nodup) (inner : Str)
    (hne : inner ≠ [])
    (hndk : ((split_settings_string inner).map stripKey).Nodup) :
    processDirective s2 (mkDirLine inner)
      = .ok (mkDirLine (joinComma (mergedTokens s2 inner))) := by
  have hlen : 0 < inner.length := List.length_pos.mpr hne
  unfold processDirective
  rw [pyFind_mkDirLine, pyRfind_mkDirLine]
  rw [if_pos (by push_cast; omega)]
  have ht1 : ((15 : Int) + 1).toNat = 16 := rfl
  have ht2 : (((16 + inner.length : Nat) : Int)).toNat = 16 + inner.length :=
    Int.toNat_natCast _
  rw [ht1, ht2, pySubstr_mkDirLine]
  have hpt := processTokens_eq s2 hnd (split_settings_string inner) [] hndk (by simp)
  rw [filterKeysNotIn_nil_keys] at hpt
  rw [hpt]
  show Except.ok (mkDirLine (joinComma
      ((split_settings_string inner).map (transformToken s2)
        ++ (filterKeysNotIn s2 ([] ++ (split_settings_string inner).map stripKey)).map
            (fun kv => kv.1 ++ '=' :: quote_value_if_needed kv.2)))) = _
  rw [List.nil_append]
  rfl

lemma processDirective_malformed (s2 : Upd) (line : Str)
    (h : pyRfind line ')' ≤ pyFind line '(' + 1) :
    processDirective s2 line = .error .malformed := by
  unfold processDirective
  rw [if_neg (by omega)]

lemma processAll_cons_eq (s2 : Upd) (line : Str) (rest : List Str) :
    processAll s2 (line :: rest)
      = if isDirective line then
          match processDirective s2 line with
          | .error e => .error e
          | .ok nl =>
            match processAll s2 rest with
            | .error e => .error e
            | .ok r => .ok (nl :: r)
        else
          match processAll s2 rest with
          | .error e => .error e
          | .ok r => .ok (line :: r) := rfl

lemma processAll_nondirective (s2 : Upd) :
    ∀ lines : List Str, (∀ l ∈ lines, isDirective l = false) →
      processAll s2 lines = .ok lines := by
  intro lines
  induction lines with
  | nil => intro _; rfl
  | cons l ls ih =>
    intro h
    rw [processAll_cons_eq, if_neg (by simp [h l (List.mem_cons_self _ _)])]
    rw [ih (fun x hx => h x (List.mem_cons_of_mem _ hx))]

lemma processAll_append_front (s2 : Upd) :
    ∀ (pre rest : List Str), (∀ l ∈ pre, isDirective l = false) →
      processAll s2 (pre ++ rest)
        = match processAll s2 rest with
          | .error e => .error e
          | .ok r => .ok (pre ++ r) := by
  intro pre
  induction pre with
  | nil =>
    intro rest _
    simp only [List.nil_append]
    cases processAll s2 rest <;> rfl
  | cons l ls ih =>
    intro rest h
    rw [List.cons_append, processAll_cons_eq,
      if_neg (by simp [h l (List.mem_cons_self _ _)])]
    rw [ih rest (fun x hx => h x (List.mem_cons_of_mem _ hx))]
    cases processAll s2 rest <;> rfl

lemma processAll_single (s2 : Upd) (pre post : List Str) (dline : Str)
    (hpre : ∀ l ∈ pre, isDirective l = false)
    (hpost : ∀ l ∈ post, isDirective l = false)
    (hd : isDirective dline = true) :
    processAll s2 (pre ++ dline :: post)
      = match processDirective s2 dline with
        | .error e => .error e
        | .ok nl => .ok (pre ++ nl :: post) := by
  rw [processAll_append_front s2 pre _ hpre]
  rw [processAll_cons_eq, if_pos hd]
  rw [processAll_nondirective s2 post hpost]
  cases processDirective s2 dline <;> rfl

lemma update_eq (publicIp : Str) (U : Upd) (lines : List Str) (hip : publicIp ≠ [])
    (hr : rconKey ∈ dictKeys U) :
    update_palworld_settings_ini publicIp U lines
      = match processAll (mkS2 publicIp U) lines with
        | .ok nl => .ok (msgSuccess, nl)
        | .error .malformed => .ok (msgMalformed, lines)
        | .error .keyError => .ok (msgWriteError, lines) := by
  obtain ⟨v, hv⟩ := dictGet_isSome_of_mem U rconKey hr
  have hv2 : dictGet (dictAssign U pubKey (('"' :: publicIp) ++ ['"'])) rconKey
      = some v := by
    rw [dictGet_assign_ne U pubKey _ rconKey (by decide)]
    exact hv
  unfold update_palworld_settings_ini mkS2
  rw [if_neg hip, hv2]
  rfl

/-! ### Shape of the update dict after PublicIP and RCONEnabled handling -/

lemma contains_false (l : Str) (a : Char) (h : l.contains a = false) : a ∉ l := by
  intro hm
  have h2 : l.contains a = true := by
    rw [List.contains_eq_any_beq, List.any_eq_true]
    exact ⟨a, hm, by simp⟩
  rw [h2] at h
  simp at h

lemma dictAssign_nodup (k v : Str) :
    ∀ u : Upd, (dictKeys u).Nodup → (dictKeys (dictAssign u k v)).Nodup ∧
      (∀ x, x ∈ dictKeys (dictAssign u k v) ↔ (x ∈ dictKeys u ∨ x = k)) := by
  intro u
  induction u with
  | nil =>
    intro _
    constructor
    · simp [dictAssign, dictKeys]
    · intro x; simp [dictAssign, dictKeys]
  | cons kv rest ih =>
    intro hnd
    simp only [dictKeys, List.map_cons, List.nodup_cons] at hnd
    by_cases hk : kv.1 = k
    · unfold dictAssign
      rw [if_pos (by simp [hk])]
      constructor
      · simp only [dictKeys, List.map_cons, List.nodup_cons]
        exact ⟨by rw [← hk]; exact hnd.1, hnd.2⟩
      · intro x
        simp only [dictKeys, List.map_cons, List.mem_cons]
        constructor
        · rintro (hx | hx)
          · right; exact hx
          · left; right; exact hx
        · rintro ((hx | hx) | hx)
          · left; rw [hx, hk]
          · right; exact hx
          · left; exact hx
    · unfold dictAssign
      rw [if_neg (by simp [hk])]
      obtain ⟨ihn, ihm⟩ := ih hnd.2
      simp only [dictKeys] at ihm
      constructor
      · simp only [dictKeys, List.map_cons, List.nodup_cons]
        refine ⟨?_, ihn⟩
        intro hmem
        rw [ihm kv.1] at hmem
        rcases hmem with hm | hm
        · exact hnd.1 hm
        · exact hk hm
      · intro x
        simp only [dictKeys, List.map_cons, List.mem_cons]
        rw [ihm x]
        tauto

lemma dictAssign_all (P : Str × Str → Bool) (k v : Str) (hP : P (k, v) = true) :
    ∀ u : Upd, u.all P = true → (dictAssign u k v).all P = true := by
  intro u
  induction u with
  | nil => intro _; simp [dictAssign, hP]
  | cons kv rest ih =>
    intro h
    rw [List.all_cons, Bool.and_eq_true] at h
    unfold dictAssign
    by_cases hk : kv.1 = k
    · rw [if_pos (by simp [hk]), List.all_cons, Bool.and_eq_true]
      exact ⟨hP, h.2⟩
    · rw [if_neg (by simp [hk]), List.all_cons, Bool.and_eq_true]
      exact ⟨h.1, ih h.2⟩

lemma mkS2_keys_nodup (ip : Str) (U : Upd) (h : (dictKeys U).Nodup) :
    (dictKeys (mkS2 ip U)).Nodup := by
  unfold mkS2 rconNorm
  have h1 := (dictAssign_nodup pubKey (('"' :: ip) ++ ['"']) U h).1
  by_cases hv : ((dictGet (dictAssign U pubKey (('"' :: ip) ++ ['"'])) rconKey).getD [])
      = "true".toList
  · rw [if_pos hv]; exact (dictAssign_nodup _ _ _ h1).1
  · rw [if_neg hv]
    by_cases hv2 : ((dictGet (dictAssign U pubKey (('"' :: ip) ++ ['"'])) rconKey).getD [])
        = "false".toList
    · rw [if_pos hv2]; exact (dictAssign_nodup _ _ _ h1).1
    · rw [if_neg hv2]; exact h1

lemma publicIp_value_balanced (ip : Str) (hq : '"' ∉ ip) :
    valueBalanced (('"' :: ip) ++ ['"']) = true := by
  unfold valueBalanced
  rw [Bool.or_eq_true]
  right
  rw [Bool.and_eq_true, Bool.and_eq_true, Bool.and_eq_true]
  refine ⟨⟨⟨?_, ?_⟩, ?_⟩, ?_⟩
  · rw [decide_eq_true_eq]
    simp only [List.length_append, List.length_cons, List.length_nil]
    omega
  · simp
  · rw [show (('"' :: ip) ++ ['"']) = '"' :: (ip ++ ['"']) from by simp]
    simp [getLast_wrap]
  · rw [show (('"' :: ip) ++ ['"']) = '"' :: (ip ++ ['"']) from by simp, countQuotes_wrap]
    have h0 : countQuotes ip = 0 := (countQuotes_eq_zero ip).mpr hq
    simp [h0]

lemma mkS2_updOK (ip : Str) (U : Upd) (hq : '"' ∉ ip) (hU : updOK U = true) :
    updOK (mkS2 ip U) = true := by
  have hbal := publicIp_value_balanced ip hq
  have h1 : updOK (dictAssign U pubKey (('"' :: ip) ++ ['"'])) = true := by
    unfold updOK at hU ⊢
    exact dictAssign_all (fun kv => updKeyOK kv.1 && valueBalanced kv.2) pubKey
      (('"' :: ip) ++ ['"'])
      (by rw [Bool.and_eq_true]
          exact ⟨by show updKeyOK pubKey = true; decide,
            by show valueBalanced (('"' :: ip) ++ ['"']) = true; exact hbal⟩) U hU
  unfold mkS2 rconNorm
  by_cases hv : ((dictGet (dictAssign U pubKey (('"' :: ip) ++ ['"'])) rconKey).getD [])
      = "true".toList
  · rw [if_pos hv]
    unfold updOK at h1 ⊢
    exact dictAssign_all (fun kv => updKeyOK kv.1 && valueBalanced kv.2) rconKey
      "True".toList (by decide) _ h1
  · rw [if_neg hv]
    by_cases hv2 : ((dictGet (dictAssign U pubKey (('"' :: ip) ++ ['"'])) rconKey).getD [])
        = "false".toList
    · rw [if_pos hv2]
      unfold updOK at h1 ⊢
      exact dictAssign_all (fun kv => updKeyOK kv.1 && valueBalanced kv.2) rconKey
        "False".toList (by decide) _ h1
    · rw [if_neg hv2]; exact h1

lemma updOK_entry (u : Upd) (h : updOK u = true) (kv : Str × Str) (hm : kv ∈ u) :
    updKeyOK kv.1 = true ∧ valueBalanced kv.2 = true := by
  unfold updOK at h
  rw [List.all_eq_true] at h
  have h2 := h kv hm
  rw [Bool.and_eq_true] at h2
  exact h2

lemma updKeyOK_parts (k : Str) (h : updKeyOK k = true) :
    '"' ∉ k ∧ ',' ∉ k ∧ '=' ∉ k ∧ pyStrip k = k := by
  unfold updKeyOK at h
  rw [Bool.and_eq_true, Bool.and_eq_true, Bool.and_eq_true] at h
  obtain ⟨⟨⟨h1, h2⟩, h3⟩, h4⟩ := h
  rw [Bool.not_eq_true'] at h1 h2 h3
  exact ⟨contains_false k '"' h1, contains_false k ',' h2, contains_false k '=' h3,
    by simpa using h4⟩

lemma tokenOK_parts (t : Str) (h : tokenOK t = true) :
    '"' ∉ stripKey t ∧ ',' ∉ stripKey t ∧ valueBalanced (partitionEq t).2 = true := by
  unfold tokenOK at h
  rw [Bool.and_eq_true, Bool.and_eq_true] at h
  obtain ⟨⟨h1, h2⟩, h3⟩ := h
  rw [Bool.not_eq_true'] at h1 h2
  exact ⟨contains_false _ '"' h1, contains_false _ ',' h2, h3⟩

/-! ### The rewritten token list is a fixed point of the merge -/

lemma headNotWS_stripKey (t : Str) : headNotWS (stripKey t) = true :=
  headNotWS_pyStrip _

lemma mergedTokens_good (s2 : Upd) (inner : Str)
    (hok : updOK s2 = true)
    (htok : ∀ t ∈ split_settings_string inner, tokenOK t = true) :
    ∀ t ∈ mergedTokens s2 inner, goodTok t = true := by
  intro t ht
  unfold mergedTokens at ht
  rw [List.mem_append] at ht
  rcases ht with ht | ht
  · rw [List.mem_map] at ht
    obtain ⟨t0, ht0, rfl⟩ := ht
    obtain ⟨hq1, hq2, hbal⟩ := tokenOK_parts t0 (htok t0 ht0)
    by_cases hc : dictContains s2 (stripKey t0) = true
    · rw [transformToken_pos s2 t0 hc]
      have hkmem := (dictContains_iff s2 _).mp hc
      obtain ⟨v, hv⟩ := dictGet_isSome_of_mem s2 _ hkmem
      have hmem : (stripKey t0, v) ∈ s2 := dictGet_mem _ _ s2 hv
      have hvb : valueBalanced v = true := (updOK_entry s2 hok _ hmem).2
      rw [hv]
      show goodTok (stripKey t0 ++ '=' :: quote_value_if_needed v) = true
      exact goodTok_build _ _ hq1 hq2 (headNotWS_stripKey t0)
        (countQuotes_quote v hvb) (noBreak_quote v hvb)
    · rw [transformToken_neg s2 t0 hc]
      exact goodTok_build _ _ hq1 hq2 (headNotWS_stripKey t0)
        (countQuotes_quote _ hbal) (noBreak_quote _ hbal)
  · rw [List.mem_map] at ht
    obtain ⟨kv, hkv, rfl⟩ := ht
    have hkv2 : kv ∈ s2 := ((mem_filterKeysNotIn s2 _ kv).mp hkv).1
    obtain ⟨hkOK, hvOK⟩ := updOK_entry s2 hok kv hkv2
    obtain ⟨k1, k2, k3, k4⟩ := updKeyOK_parts _ hkOK
    exact goodTok_build _ _ k1 k2 (by rw [← k4]; exact headNotWS_pyStrip _)
      (countQuotes_quote _ hvOK) (noBreak_quote _ hvOK)

lemma stripKey_transformToken (s2 : Upd) (t : Str) :
    stripKey (transformToken s2 t) = stripKey t := by
  by_cases hc : dictContains s2 (stripKey t) = true
  · rw [transformToken_pos s2 t hc]
    exact stripKey_append _ _ (stripKey_no_eq t) (pyStrip_idem _)
  · rw [transformToken_neg s2 t hc]
    exact stripKey_append _ _ (stripKey_no_eq t) (pyStrip_idem _)

lemma mergedTokens_keys (s2 : Upd) (hok : updOK s2 = true) (inner : Str) :
    (mergedTokens s2 inner).map stripKey
      = (split_settings_string inner).map stripKey
        ++ (filterKeysNotIn s2 ((split_settings_string inner).map stripKey)).map
            Prod.fst := by
  unfold mergedTokens
  rw [List.map_append, List.map_map, List.map_map]
  congr 1
  · apply List.map_congr_left
    intro t _
    simp only [Function.comp_apply]
    exact stripKey_transformToken s2 t
  · apply List.map_congr_left
    intro kv hkv
    simp only [Function.comp_apply]
    have hkv2 : kv ∈ s2 := ((mem_filterKeysNotIn s2 _ kv).mp hkv).1
    obtain ⟨k1, k2, k3, k4⟩ := updKeyOK_parts _ (updOK_entry s2 hok kv hkv2).1
    exact stripKey_append _ _ k3 k4

lemma mergedTokens_keys_nodup (s2 : Upd) (hok : updOK s2 = true)
    (hnd : (dictKeys s2).Nodup) (inner : Str)
    (htnd : ((split_settings_string inner).map stripKey).Nodup) :
    ((mergedTokens s2 inner).map stripKey).Nodup := by
  rw [mergedTokens_keys s2 hok inner]
  rw [List.nodup_append]
  refine ⟨htnd, ?_, ?_⟩
  · have hsub := (List.filter_sublist
      (p := fun kv => decide (kv.1 ∉ (split_settings_string inner).map stripKey)) s2).map
        Prod.fst
    exact List.Nodup.sublist hsub hnd
  · intro x hx hx2
    rw [List.mem_map] at hx2
    obtain ⟨kv, hkv, hkx⟩ := hx2
    exact ((mem_filterKeysNotIn s2 _ kv).mp hkv).2 (hkx ▸ hx)

lemma mergedTokens_leftover_nil (s2 : Upd) (hok : updOK s2 = true) (inner : Str) :
    filterKeysNotIn s2 ((mergedTokens s2 inner).map stripKey) = [] := by
  unfold filterKeysNotIn
  rw [List.filter_eq_nil_iff]
  intro kv hkv
  simp only [decide_eq_true_eq, not_not]
  rw [mergedTokens_keys s2 hok inner, List.mem_append]
  by_cases hm : kv.1 ∈ (split_settings_string inner).map stripKey
  · exact Or.inl hm
  · right
    rw [List.mem_map]
    exact ⟨kv, (mem_filterKeysNotIn s2 _ kv).mpr ⟨hkv, hm⟩, rfl⟩

lemma transformToken_fix_matched (s2 : Upd) (k : Str) (hk : k ∈ dictKeys s2)
    (hkeq : '=' ∉ k) (hks : pyStrip k = k) :
    transformToken s2 (k ++ '=' :: quote_value_if_needed ((dictGet s2 k).getD []))
      = k ++ '=' :: quote_value_if_needed ((dictGet s2 k).getD []) := by
  have hsk : stripKey (k ++ '=' :: quote_value_if_needed ((dictGet s2 k).getD [])) = k :=
    stripKey_append _ _ hkeq hks
  rw [transformToken_pos s2 _ (by rw [hsk]; exact (dictContains_iff s2 k).mpr hk)]
  rw [hsk]

lemma transformToken_fix_unmatched (s2 : Upd) (k v : Str) (hk : k ∉ dictKeys s2)
    (hkeq : '=' ∉ k) (hks : pyStrip k = k) :
    transformToken s2 (k ++ '=' :: quote_value_if_needed v)
      = k ++ '=' :: quote_value_if_needed v := by
  have hsk : stripKey (k ++ '=' :: quote_value_if_needed v) = k :=
    stripKey_append _ _ hkeq hks
  rw [transformToken_neg s2 _
    (by rw [hsk]; intro hc; exact hk ((dictContains_iff s2 k).mp hc))]
  rw [hsk]
  rw [show (partitionEq (k ++ '=' :: quote_value_if_needed v)).2
    = quote_value_if_needed v from by rw [partitionEq_append _ _ hkeq]]
  rw [quote_idem]

lemma mergedTokens_map_fix (s2 : Upd) (hok : updOK s2 = true)
    (hnd : (dictKeys s2).Nodup) (inner : Str) :
    (mergedTokens s2 inner).map (transformToken s2) = mergedTokens s2 inner := by
  unfold mergedTokens
  rw [List.map_append, List.map_map, List.map_map]
  congr 1
  · apply List.map_congr_left
    intro t _
    simp only [Function.comp_apply]
    by_cases hc : dictContains s2 (stripKey t) = true
    · rw [transformToken_pos s2 t hc]
      exact transformToken_fix_matched s2 (stripKey t) ((dictContains_iff s2 _).mp hc)
        (stripKey_no_eq t) (pyStrip_idem _)
    · rw [transformToken_neg s2 t hc]
      exact transformToken_fix_unmatched s2 (stripKey t) _
        (fun hm => hc ((dictContains_iff s2 _).mpr hm)) (stripKey_no_eq t) (pyStrip_idem _)
  · apply List.map_congr_left
    intro kv hkv
    simp only [Function.comp_apply]
    have hkv2 : kv ∈ s2 := ((mem_filterKeysNotIn s2 _ kv).mp hkv).1
    obtain ⟨k1, k2, k3, k4⟩ := updKeyOK_parts _ (updOK_entry s2 hok kv hkv2).1
    have hkmem : kv.1 ∈ dictKeys s2 := List.mem_map_of_mem Prod.fst hkv2
    have hget : dictGet s2 kv.1 = some kv.2 :=
      dictGet_of_mem_nodup kv.1 kv.2 s2 hnd hkv2
    have hfix := transformToken_fix_matched s2 kv.1 hkmem k3 k4
    rw [hget] at hfix
    exact hfix

lemma mergedTokens_ne_nil (s2 : Upd) (inner : Str) :
    joinComma (mergedTokens s2 inner) ≠ [] := by
  obtain ⟨t0, ts', hts⟩ :=
    List.exists_cons_of_ne_nil (split_settings_string_ne_nil inner)
  unfold mergedTokens
  rw [hts, List.map_cons, List.cons_append]
  apply joinComma_ne_nil
  have hform : ∀ (k qv : Str), k ++ '=' :: qv ≠ [] := fun k qv => by simp
  by_cases hc : dictContains s2 (stripKey t0) = true
  · rw [transformToken_pos s2 t0 hc]; exact hform _ _
  · rw [transformToken_neg s2 t0 hc]; exact hform _ _

lemma mergedTokens_fixpoint (s2 : Upd) (inner : Str)
    (hnd : (dictKeys s2).Nodup) (hok : updOK s2 = true)
    (htok : ∀ t ∈ split_settings_string inner, tokenOK t = true) :
    split_settings_string (joinComma (mergedTokens s2 inner)) = mergedTokens s2 inner
    ∧ mergedTokens s2 (joinComma (mergedTokens s2 inner)) = mergedTokens s2 inner := by
  have hgood := mergedTokens_good s2 inner hok htok
  have hne : mergedTokens s2 inner ≠ [] := by
    obtain ⟨t0, ts', hts⟩ :=
      List.exists_cons_of_ne_nil (split_settings_string_ne_nil inner)
    unfold mergedTokens
    rw [hts, List.map_cons, List.cons_append]
    simp
  have hsj : split_settings_string (joinComma (mergedTokens s2 inner))
      = mergedTokens s2 inner := split_join _ hne hgood
  refine ⟨hsj, ?_⟩
  show (split_settings_string (joinComma (mergedTokens s2 inner))).map (transformToken s2)
      ++ (filterKeysNotIn s2
          ((split_settings_string (joinComma (mergedTokens s2 inner))).map stripKey)).map
        (fun kv => kv.1 ++ '=' :: quote_value_if_needed kv.2)
    = mergedTokens s2 inner
  rw [hsj, mergedTokens_map_fix s2 hok hnd inner, mergedTokens_leftover_nil s2 hok inner]
  simp

/-! ### Claims about the settings merge (C7, C2, C1) -/

lemma update_success_char (publicIp : Str) (U : Upd) (pre post : List Str) (inner : Str)
    (hip : publicIp ≠ []) (hr : rconKey ∈ dictKeys U) (hUnd : (dictKeys U).Nodup)
    (hpre : ∀ l ∈ pre, isDirective l = false)
    (hpost : ∀ l ∈ post, isDirective l = false)
    (hinner : inner ≠ [])
    (htnd : ((split_settings_string inner).map stripKey).Nodup) :
    update_palworld_settings_ini publicIp U (pre ++ mkDirLine inner :: post)
      = .ok (msgSuccess,
          pre ++ mkDirLine (joinComma (mergedTokens (mkS2 publicIp U) inner)) :: post) := by
  rw [update_eq publicIp U _ hip hr]
  rw [processAll_single (mkS2 publicIp U) pre post _ hpre hpost (isDirective_mkDirLine inner)]
  rw [processDirective_ok (mkS2 publicIp U) (mkS2_keys_nodup publicIp U hUnd) inner
    hinner htnd]

/-- Claim C7 (corrected).  The merge does not fail when no directive
line exists: it rewrites the file unchanged and reports success.  The
malformed-document error occurs exactly when a directive line has its
last closing parenthesis at or before the position following its first
opening parenthesis (which includes an empty parenthesized span), and
the file is then left unchanged.  A well-formed directive line with a
nonempty span is rewritten while every other line passes through. -/
theorem merge_malformed_behaviour (publicIp : Str) (U : Upd)
    (hip : publicIp ≠ []) (hr : rconKey ∈ dictKeys U) (hUnd : (dictKeys U).Nodup) :
    (∀ lines : List Str, (∀ l ∈ lines, isDirective l = false) →
      update_palworld_settings_ini publicIp U lines = .ok (msgSuccess, lines))
    ∧ (∀ (pre post : List Str) (dline : Str),
        (∀ l ∈ pre, isDirective l = false) → isDirective dline = true →
        pyRfind dline ')' ≤ pyFind dline '(' + 1 →
        update_palworld_settings_ini publicIp U (pre ++ dline :: post)
          = .ok (msgMalformed, pre ++ dline :: post))
    ∧ (∀ (pre post : List Str) (inner : Str),
        (∀ l ∈ pre, isDirective l = false) → (∀ l ∈ post, isDirective l = false) →
        inner ≠ [] → ((split_settings_string inner).map stripKey).Nodup →
        update_palworld_settings_ini publicIp U (pre ++ mkDirLine inner :: post)
          = .ok (msgSuccess,
              pre ++ mkDirLine (joinComma (mergedTokens (mkS2 publicIp U) inner)) :: post)) := by
  refine ⟨?_, ?_, ?_⟩
  · intro lines h
    rw [update_eq publicIp U lines hip hr, processAll_nondirective _ lines h]
  · intro pre post dline hpre hd hmal
    rw [update_eq publicIp U _ hip hr]
    rw [processAll_append_front _ pre _ hpre]
    rw [processAll_cons_eq, if_pos hd]
    rw [processDirective_malformed _ dline hmal]
  · intro pre post inner hpre hpost hinner htnd
    exact update_success_char publicIp U pre post inner hip hr hUnd hpre hpost hinner htnd

/-- Witness for merge_malformed_behaviour: a directive line with no
parenthesized span produces the malformed error and an unchanged file. -/
theorem merge_malformed_behaviour_witness :
    update_palworld_settings_ini "1.2.3.4".toList [("RCONEnabled".toList, "True".toList)]
      (["x\n".toList] ++ "OptionSettings=abc\n".toList :: [])
      = .ok (msgMalformed, ["x\n".toList] ++ "OptionSettings=abc\n".toList :: []) :=
  (merge_malformed_behaviour "1.2.3.4".toList [("RCONEnabled".toList, "True".toList)]
    (by decide) (by decide) (by decide)).2.1
    ["x\n".toList] [] "OptionSettings=abc\n".toList (by decide) (by decide) (by decide)

/-- Claim C7, original statement, refuted: a document with no directive
line does not produce a malformed-document error (the call succeeds and
rewrites the file unchanged), and a directive line whose closing
parenthesis sits strictly after its opening parenthesis, namely an
empty parenthesized span, is rejected rather than rewritten. -/
theorem merge_malformed_counterexample :
    update_palworld_settings_ini "1.2.3.4".toList [("RCONEnabled".toList, "True".toList)]
      ["hello\n".toList]
      = .ok (msgSuccess, ["hello\n".toList])
    ∧ update_palworld_settings_ini "1.2.3.4".toList [("RCONEnabled".toList, "True".toList)]
      ["OptionSettings=()\n".toList]
      = .ok (msgMalformed, ["OptionSettings=()\n".toList])
    ∧ pyFind "OptionSettings=()\n".toList '(' < pyRfind "OptionSettings=()\n".toList ')' := by
  decide

/-- Claim C2 (corrected).  A key k present in the directive but absent
from the update dict is re-emitted as strip(k)=quote_value_if_needed(v):
the stripped key and the re-quoted value.  The token is byte-identical
to the original exactly when it was already in that normal form; a
token whose key carries surrounding whitespace or whose value is
changed by the quoting rule is rewritten. -/
theorem merge_unknown_key_renormalized (publicIp : Str) (U : Upd) (pre post : List Str)
    (inner : Str) (hip : publicIp ≠ []) (hr : rconKey ∈ dictKeys U)
    (hUnd : (dictKeys U).Nodup)
    (hpre : ∀ l ∈ pre, isDirective l = false) (hpost : ∀ l ∈ post, isDirective l = false)
    (hinner : inner ≠ []) (htnd : ((split_settings_string inner).map stripKey).Nodup) :
    update_palworld_settings_ini publicIp U (pre ++ mkDirLine inner :: post)
      = .ok (msgSuccess,
          pre ++ mkDirLine (joinComma ((split_settings_string inner).map
              (transformToken (mkS2 publicIp U))
            ++ (filterKeysNotIn (mkS2 publicIp U)
                ((split_settings_string inner).map stripKey)).map
              (fun kv => kv.1 ++ '=' :: quote_value_if_needed kv.2))) :: post)
    ∧ ∀ t ∈ split_settings_string inner,
        stripKey t ∉ dictKeys (mkS2 publicIp U) →
          transformToken (mkS2 publicIp U) t
            = stripKey t ++ '=' :: quote_value_if_needed (partitionEq t).2
          ∧ (normalizedToken t = true → transformToken (mkS2 publicIp U) t = t) := by
  constructor
  · exact update_success_char publicIp U pre post inner hip hr hUnd hpre hpost hinner htnd
  · intro t ht hnk
    have hc : ¬ dictContains (mkS2 publicIp U) (stripKey t) = true :=
      fun hcc => hnk ((dictContains_iff _ _).mp hcc)
    refine ⟨transformToken_neg _ t hc, ?_⟩
    intro hnorm
    unfold normalizedToken at hnorm
    rw [Bool.and_eq_true] at hnorm
    have h1 : t = stripKey t ++ '=' :: (partitionEq t).2 := by simpa using hnorm.1
    have h2 : quote_value_if_needed (partitionEq t).2 = (partitionEq t).2 := by
      simpa using hnorm.2
    rw [transformToken_neg _ t hc, h2, ← h1]

/-- Witness for merge_unknown_key_renormalized on a two-token
directive. -/
theorem merge_unknown_key_renormalized_witness :
    update_palworld_settings_ini "1.2.3.4".toList [("RCONEnabled".toList, "True".toList)]
      ([] ++ mkDirLine "A=1,B=x y".toList :: [])
      = .ok (msgSuccess,
          [] ++ mkDirLine (joinComma ((split_settings_string "A=1,B=x y".toList).map
              (transformToken (mkS2 "1.2.3.4".toList [("RCONEnabled".toList, "True".toList)]))
            ++ (filterKeysNotIn (mkS2 "1.2.3.4".toList [("RCONEnabled".toList, "True".toList)])
                ((split_settings_string "A=1,B=x y".toList).map stripKey)).map
              (fun kv => kv.1 ++ '=' :: quote_value_if_needed kv.2))) :: []) :=
  (merge_unknown_key_renormalized "1.2.3.4".toList [("RCONEnabled".toList, "True".toList)]
    [] [] "A=1,B=x y".toList (by decide) (by decide) (by decide) (by decide) (by decide)
    (by decide) (by decide)).1

/-- Claim C2, original statement, refuted: the key B is not in the
update dict, yet its token B=x y is rewritten to B="x y" by the
quoting re-normalization, so the token is not byte-identical after the
merge. -/
theorem merge_unknown_key_counterexample :
    update_palworld_settings_ini "1.2.3.4".toList [("RCONEnabled".toList, "True".toList)]
      ["OptionSettings=(A=1,B=x y)\n".toList]
      = .ok (msgSuccess,
          ["OptionSettings=(A=1,B=\"x y\",RCONEnabled=True,PublicIP=\"1.2.3.4\")\n".toList])
    ∧ "B".toList ∉ dictKeys [("RCONEnabled".toList, "True".toList)]
    ∧ "OptionSettings=(A=1,B=x y)\n".toList
      ≠ "OptionSettings=(A=1,B=\"x y\",RCONEnabled=True,PublicIP=\"1.2.3.4\")\n".toList := by
  decide

/-- Claim C1 (corrected).  The merge is idempotent on well-formed
inputs: a document with exactly one well-formed directive line whose
tokens have quote-free, comma-free stripped keys, balanced values and
distinct keys, and an update dict with well-behaved keys and balanced
values containing RCONEnabled, together with a nonempty quote-free
public IP.  Merging once succeeds, and merging the same updates into
the result returns the same document and result again. -/
theorem merge_idempotent (publicIp : Str) (U : Upd) (pre post : List Str) (inner : Str)
    (hip : publicIp ≠ []) (hipq : '"' ∉ publicIp)
    (hUnd : (dictKeys U).Nodup) (hUok : updOK U = true)
    (hr : rconKey ∈ dictKeys U)
    (hpre : ∀ l ∈ pre, isDirective l = false) (hpost : ∀ l ∈ post, isDirective l = false)
    (hinner : inner ≠ [])
    (htok : ∀ t ∈ split_settings_string inner, tokenOK t = true)
    (htnd : ((split_settings_string inner).map stripKey).Nodup) :
    update_palworld_settings_ini publicIp U (pre ++ mkDirLine inner :: post)
      = .ok (msgSuccess,
          pre ++ mkDirLine (joinComma (mergedTokens (mkS2 publicIp U) inner)) :: post)
    ∧ update_palworld_settings_ini publicIp U
        (pre ++ mkDirLine (joinComma (mergedTokens (mkS2 publicIp U) inner)) :: post)
      = .ok (msgSuccess,
          pre ++ mkDirLine (joinComma (mergedTokens (mkS2 publicIp U) inner)) :: post) := by
  have hnd2 := mkS2_keys_nodup publicIp U hUnd
  have hok2 := mkS2_updOK publicIp U hipq hUok
  obtain ⟨hsj, hfix⟩ := mergedTokens_fixpoint (mkS2 publicIp U) inner hnd2 hok2 htok
  constructor
  · exact update_success_char publicIp U pre post inner hip hr hUnd hpre hpost hinner htnd
  · have h2 := update_success_char publicIp U pre post
      (joinComma (mergedTokens (mkS2 publicIp U) inner)) hip hr hUnd hpre hpost
      (mergedTokens_ne_nil (mkS2 publicIp U) inner)
      (by rw [hsj]; exact mergedTokens_keys_nodup _ hok2 hnd2 inner htnd)
    rw [hfix] at h2
    exact h2

/-- Witness for merge_idempotent on a one-token directive. -/
theorem merge_idempotent_witness :
    update_palworld_settings_ini "1.2.3.4".toList [("RCONEnabled".toList, "True".toList)]
      ([] ++ mkDirLine "A=1".toList :: [])
      = .ok (msgSuccess,
          [] ++ mkDirLine (joinComma (mergedTokens
            (mkS2 "1.2.3.4".toList [("RCONEnabled".toList, "True".toList)])
            "A=1".toList)) :: [])
    ∧ update_palworld_settings_ini "1.2.3.4".toList [("RCONEnabled".toList, "True".toList)]
        ([] ++ mkDirLine (joinComma (mergedTokens
            (mkS2 "1.2.3.4".toList [("RCONEnabled".toList, "True".toList)])
            "A=1".toList)) :: [])
      = .ok (msgSuccess,
          [] ++ mkDirLine (joinComma (mergedTokens
            (mkS2 "1.2.3.4".toList [("RCONEnabled".toList, "True".toList)])
            "A=1".toList)) :: []) :=
  merge_idempotent "1.2.3.4".toList [("RCONEnabled".toList, "True".toList)]
    [] [] "A=1".toList (by decide) (by decide) (by decide) (by decide) (by decide)
    (by decide) (by decide) (by decide) (by decide) (by decide)

/-- Claim C1, original statement, refuted: with the update value a,b"
(accepted by the merge, which never rejects an update dict), the first
merge produces the token A="a,b"" whose unbalanced quoting makes the
second merge split the directive differently, inserting a spurious
token, so merging the same updates twice changes the document again. -/
theorem merge_idempotent_counterexample :
    update_palworld_settings_ini "1.2.3.4".toList
      [("RCONEnabled".toList, "True".toList), ("A".toList, "a,b\"".toList)]
      ["OptionSettings=(A=1,B=2)\n".toList]
      = .ok (msgSuccess,
          ["OptionSettings=(A=\"a,b\"\",B=2,RCONEnabled=True,PublicIP=\"1.2.3.4\")\n".toList])
    ∧ update_palworld_settings_ini "1.2.3.4".toList
      [("RCONEnabled".toList, "True".toList), ("A".toList, "a,b\"".toList)]
      ["OptionSettings=(A=\"a,b\"\",B=2,RCONEnabled=True,PublicIP=\"1.2.3.4\")\n".toList]
      = .ok (msgSuccess,
          ["OptionSettings=(A=\"a,b\"\",b\"\"=,B=2,RCONEnabled=True,PublicIP=\"1.2.3.4\")\n".toList])
    ∧ ("OptionSettings=(A=\"a,b\"\",B=2,RCONEnabled=True,PublicIP=\"1.2.3.4\")\n".toList
        : Str)
      ≠ "OptionSettings=(A=\"a,b\"\",b\"\"=,B=2,RCONEnabled=True,PublicIP=\"1.2.3.4\")\n".toList := by
  decide
